import Mathlib

/-! # Florincoin proof-of-work: difficulty retargeting and verification

A shallow embedding of `src/pow.cpp` (`GetNextWorkRequired`,
`CalculateNextWorkRequired`, `CheckProofOfWork`) together with the parts of
`consensus/params.h` it reads.

Conventions

* C++ `unsigned int` / `uint32_t` values are natural numbers below `2^32`;
  every arithmetic step that can leave that range is reduced `% 2^32`
  explicitly.  `int64_t` values are integers.  `arith_uint256` values are
  natural numbers below `2^256`, with `% 2^256` after every multiplication and
  left shift.
* Block heights are non-negative `int`s, so `nHeight+1` does not overflow and
  its conversion to `unsigned int` in the comparisons with the parameter
  fields is the identity; heights are natural numbers.
* Code that can abort (a failed `assert`, an integer modulo by zero, the
  `uint_error` thrown by a big-integer division by zero) returns `Except`.
* The function-local `static const int` bounds of the two retargeting
  functions are initialised once per process; they are threaded through the
  embedding as an explicit `StaticState`.
-/

namespace Florincoin

/-! ## Machine integers -/

/-- The modulus of 32-bit unsigned arithmetic. -/
def U32 : Nat := 2 ^ 32

/-- The modulus of `arith_uint256` arithmetic. -/
def U256 : Nat := 2 ^ 256

/-- Conversion of an `unsigned int` bit pattern to `int` (two's complement). -/
def toInt32 (u : Nat) : Int :=
  if u % U32 < 2 ^ 31 then ((u % U32 : Nat) : Int) else ((u % U32 : Nat) : Int) - (U32 : Int)

/-- Conversion of an `int` (or `int64_t`) to `unsigned int`: reduction modulo `2^32`. -/
def toU32 (i : Int) : Nat := (i % (U32 : Int)).toNat

/-- Reduction of an integer to the range of `int64_t` (two's complement on 64 bits):
the value a 64-bit machine holds after a signed operation, equal to the
mathematical result whenever that result is in range. -/
def toInt64 (i : Int) : Int := (i + 2 ^ 63) % 2 ^ 64 - 2 ^ 63

/-! ## Consensus parameters (`consensus/params.h`) -/

/-- The proof-of-work fields of `Consensus::Params`.  `powLimit` is a `uint256`,
`nPowTargetSpacing` an `int64_t`, the `_VersionN` fields are `unsigned int`. -/
structure Params where
  powLimit : Nat
  fPowAllowMinDifficultyBlocks : Bool
  fPowNoRetargeting : Bool
  nPowTargetSpacing : Int
  nPowTargetTimespan_Version1 : Nat
  nInterval_Version1 : Nat
  nHeight_Version2 : Nat
  nInterval_Version2 : Nat
  nPowTargetTimespan_Version2 : Nat
  nHeight_Version3 : Nat
  nInterval_Version3 : Nat
  nPowTargetTimespan_Version3 : Nat
  nMaxAdjustDown_Version1 : Nat
  nMaxAdjustUp_Version1 : Nat
  nMaxAdjustDown_Version2 : Nat
  nMaxAdjustUp_Version2 : Nat
  nMaxAdjustDown_Version3 : Nat
  nMaxAdjustUp_Version3 : Nat
  nAveragingInterval_Version1 : Nat
  nAveragingInterval_Version2 : Nat
  nAveragingInterval_Version3 : Nat
  nAveragingTargetTimespan_Version1 : Nat
  nAveragingTargetTimespan_Version2 : Nat
  nAveragingTargetTimespan_Version3 : Nat
  deriving DecidableEq, Repr

/-- Every field holds a value of its C++ type. -/
def Params.InRange (p : Params) : Prop :=
  p.powLimit < U256 ∧
  -(2 ^ 63 : Int) ≤ p.nPowTargetSpacing ∧ p.nPowTargetSpacing < 2 ^ 63 ∧
  p.nPowTargetTimespan_Version1 < U32 ∧ p.nInterval_Version1 < U32 ∧
  p.nHeight_Version2 < U32 ∧ p.nInterval_Version2 < U32 ∧
  p.nPowTargetTimespan_Version2 < U32 ∧ p.nHeight_Version3 < U32 ∧
  p.nInterval_Version3 < U32 ∧ p.nPowTargetTimespan_Version3 < U32 ∧
  p.nMaxAdjustDown_Version1 < U32 ∧ p.nMaxAdjustUp_Version1 < U32 ∧
  p.nMaxAdjustDown_Version2 < U32 ∧ p.nMaxAdjustUp_Version2 < U32 ∧
  p.nMaxAdjustDown_Version3 < U32 ∧ p.nMaxAdjustUp_Version3 < U32 ∧
  p.nAveragingInterval_Version1 < U32 ∧ p.nAveragingInterval_Version2 < U32 ∧
  p.nAveragingInterval_Version3 < U32 ∧
  p.nAveragingTargetTimespan_Version1 < U32 ∧ p.nAveragingTargetTimespan_Version2 < U32 ∧
  p.nAveragingTargetTimespan_Version3 < U32

/-! ## Chain headers -/

/-- Modelled from the spec: the block header view of `chain.h` (`CBlockIndex`), whose
declaration is not part of the sources.  A header has a height (a non-negative
integer, an `int` in C++, so below `2^31`), a 32-bit timestamp `nTime`, a
32-bit compact target `nBits` and a link `pprev` to its direct parent, absent
at the root of the chain. -/
inductive CBlockIndex where
  | mk (nHeight : Nat) (nTime : Nat) (nBits : Nat) (pprev : Option CBlockIndex) : CBlockIndex

namespace CBlockIndex

def nHeight : CBlockIndex → Nat
  | mk h _ _ _ => h

def nTime : CBlockIndex → Nat
  | mk _ t _ _ => t

def nBits : CBlockIndex → Nat
  | mk _ _ b _ => b

def pprev : CBlockIndex → Option CBlockIndex
  | mk _ _ _ p => p

/-- The method `GetBlockTime()`: the timestamp widened to `int64_t`. -/
def GetBlockTime (b : CBlockIndex) : Int := (b.nTime : Int)

end CBlockIndex

/-- Walk `n` parent links back; `none` once the walk has run off the root. -/
def stepBack : Nat → Option CBlockIndex → Option CBlockIndex
  | 0, p => p
  | _ + 1, none => none
  | n + 1, some b => stepBack n b.pprev

/-- Modelled from the spec: the candidate block header (`CBlockHeader` of
`primitives/block.h`, not part of the sources); only its 32-bit timestamp is read. -/
structure CBlockHeader where
  nTime : Nat
  deriving DecidableEq, Repr

/-- The method `GetBlockTime()`: the timestamp widened to `int64_t`. -/
def CBlockHeader.GetBlockTime (b : CBlockHeader) : Int := (b.nTime : Int)

/-! ## The compact-target codec (`arith_uint256`) -/

/-- Scan for the highest set bit among the low `n` bits of `v`. -/
def bitsFrom : Nat → Nat → Nat
  | 0, _ => 0
  | n + 1, v => if v / 2 ^ n % 2 = 1 then n + 1 else bitsFrom n v

/-- Modelled from the spec: `arith_uint256::bits()`, the bit length of a 256-bit
magnitude (position of the highest set bit plus one, zero for zero). -/
def bits (v : Nat) : Nat := bitsFrom 256 v

/-- The result of decoding a compact target. -/
structure Decoded where
  magnitude : Nat
  fNegative : Bool
  fOverflow : Bool
  deriving DecidableEq, Repr

/-- Modelled from the spec: `arith_uint256::SetCompact` (section 4.1, `decode`), absent
from the sources.  The high byte is the exponent `nSize`, the low 23 bits are
the mantissa `nWord` and bit `0x00800000` is the sign.  For `nSize <= 3` the
magnitude is the mantissa shifted right by `8*(3-nSize)` bits, otherwise the
mantissa shifted left by `8*(nSize-3)` bits within 256 bits.  The flags are
those of the encoding: negative when the sign bit is set on a non-zero
mantissa, overflowed when a non-zero mantissa is shifted past bit 255. -/
def SetCompact (nCompact : Nat) : Decoded :=
  let nSize := nCompact / 2 ^ 24
  let nWord := nCompact % 2 ^ 23
  let nWord := if nSize ≤ 3 then nWord / 2 ^ (8 * (3 - nSize)) else nWord
  { magnitude := if nSize ≤ 3 then nWord else nWord * 2 ^ (8 * (nSize - 3)) % U256
    fNegative := decide (nWord ≠ 0 ∧ nCompact / 2 ^ 23 % 2 = 1)
    fOverflow := decide (nWord ≠ 0 ∧
      (nSize > 34 ∨ (nWord > 0xff ∧ nSize > 33) ∨ (nWord > 0xffff ∧ nSize > 32))) }

/-- Modelled from the spec: `arith_uint256::GetCompact` (section 4.1, `encode`), absent
from the sources.  The exponent is the byte length of the magnitude, the
mantissa its three most significant bytes; when the mantissa would have the
sign bit `0x00800000` set it is shifted down one more byte and the exponent
incremented, which gives the canonical form. -/
def GetCompact (v : Nat) : Nat :=
  let nSize := (bits v + 7) / 8
  let nCompact :=
    if nSize ≤ 3 then v % 2 ^ 64 * 2 ^ (8 * (3 - nSize)) % U32
    else v / 2 ^ (8 * (nSize - 3)) % 2 ^ 64 % U32
  if nCompact / 2 ^ 23 % 2 = 1 then nCompact / 2 ^ 8 + (nSize + 1) * 2 ^ 24
  else nCompact + nSize * 2 ^ 24

/-! ## Static bounds and version selection -/

/-- Wrapping 32-bit unsigned subtraction. -/
def subU32 (a b : Nat) : Nat := (a % U32 + (U32 - b % U32)) % U32

/-- Wrapping 32-bit unsigned addition. -/
def addU32 (a b : Nat) : Nat := (a + b) % U32

/-- Wrapping 32-bit unsigned multiplication. -/
def mulU32 (a b : Nat) : Nat := (a * b) % U32

/-- The six function-local `static const int` bounds (`pow.cpp` lines 17-22 and
111-116). -/
structure ActualTimespans where
  nMinActualTimespan_Version1 : Int
  nMaxActualTimespan_Version1 : Int
  nMinActualTimespan_Version2 : Int
  nMaxActualTimespan_Version2 : Int
  nMinActualTimespan_Version3 : Int
  nMaxActualTimespan_Version3 : Int
  deriving DecidableEq, Repr

/-- The initialisers of the static bounds: `unsigned int` arithmetic, stored in an
`int`. -/
def ActualTimespans.init (params : Params) : ActualTimespans :=
  { nMinActualTimespan_Version1 := toInt32
      (mulU32 params.nAveragingTargetTimespan_Version1 (subU32 100 params.nMaxAdjustUp_Version1) / 100)
    nMaxActualTimespan_Version1 := toInt32
      (mulU32 params.nAveragingTargetTimespan_Version1 (addU32 100 params.nMaxAdjustDown_Version1) / 100)
    nMinActualTimespan_Version2 := toInt32
      (mulU32 params.nAveragingTargetTimespan_Version2 (subU32 100 params.nMaxAdjustUp_Version2) / 100)
    nMaxActualTimespan_Version2 := toInt32
      (mulU32 params.nAveragingTargetTimespan_Version2 (addU32 100 params.nMaxAdjustDown_Version2) / 100)
    nMinActualTimespan_Version3 := toInt32
      (mulU32 params.nAveragingTargetTimespan_Version3 (subU32 100 params.nMaxAdjustUp_Version3) / 100)
    nMaxActualTimespan_Version3 := toInt32
      (mulU32 params.nAveragingTargetTimespan_Version3 (addU32 100 params.nMaxAdjustDown_Version3) / 100) }

/-- The static storage of the process: the bounds of `GetNextWorkRequired` and of
`CalculateNextWorkRequired`, `none` until the declaration is first executed. -/
structure StaticState where
  getNextWorkRequired : Option ActualTimespans
  calculateNextWorkRequired : Option ActualTimespans
  deriving DecidableEq, Repr

/-- A process in which neither function has run yet. -/
def StaticState.fresh : StaticState := ⟨none, none⟩

/-- The locals assigned by the version `if`-chain (`pow.cpp` lines 30-64, 118-152). -/
structure Selected where
  nInterval : Nat
  nTargetTimespan : Nat
  nAveragingInterval : Nat
  nMinActualTimespan : Nat
  nMaxActualTimespan : Nat
  nAveragingTargetTimespan : Nat
  deriving DecidableEq, Repr

/-- The branch of the version `if`-chain taken for the block at height
`nHeightNext = pindexLast->nHeight+1`. -/
def epochIndex (params : Params) (nHeightNext : Nat) : Nat :=
  if nHeightNext < params.nHeight_Version2 then 1
  else if nHeightNext < params.nHeight_Version3 then 2
  else 3

/-- The assignments made in branch `i` of the version `if`-chain. -/
def versionFields (st : ActualTimespans) (params : Params) : Nat → Selected
  | 1 =>
    { nAveragingInterval := params.nAveragingInterval_Version1
      nInterval := params.nInterval_Version1
      nTargetTimespan := params.nPowTargetTimespan_Version1
      nMinActualTimespan := toU32 st.nMinActualTimespan_Version1
      nMaxActualTimespan := toU32 st.nMaxActualTimespan_Version1
      nAveragingTargetTimespan := params.nAveragingTargetTimespan_Version1 }
  | 2 =>
    { nAveragingInterval := params.nAveragingInterval_Version2
      nInterval := params.nInterval_Version2
      nTargetTimespan := params.nPowTargetTimespan_Version2
      nMinActualTimespan := toU32 st.nMinActualTimespan_Version2
      nMaxActualTimespan := toU32 st.nMaxActualTimespan_Version2
      nAveragingTargetTimespan := params.nAveragingTargetTimespan_Version2 }
  | _ =>
    { nAveragingInterval := params.nAveragingInterval_Version3
      nInterval := params.nInterval_Version3
      nTargetTimespan := params.nPowTargetTimespan_Version3
      nMinActualTimespan := toU32 st.nMinActualTimespan_Version3
      nMaxActualTimespan := toU32 st.nMaxActualTimespan_Version3
      nAveragingTargetTimespan := params.nAveragingTargetTimespan_Version3 }

/-- The whole version `if`-chain. -/
def selectVersion (st : ActualTimespans) (params : Params) (nHeightNext : Nat) : Selected :=
  versionFields st params (epochIndex params nHeightNext)

/-- The upward adjustment percentage of the version that governs the block at height
`nHeightNext` (the `nMaxAdjustUp_VersionN` field of the selected version). -/
def selectedMaxAdjustUp (params : Params) (nHeightNext : Nat) : Nat :=
  match epochIndex params nHeightNext with
  | 1 => params.nMaxAdjustUp_Version1
  | 2 => params.nMaxAdjustUp_Version2
  | _ => params.nMaxAdjustUp_Version3

/-- The downward adjustment percentage of the version that governs the block at
height `nHeightNext` (the `nMaxAdjustDown_VersionN` field of the selected
version). -/
def selectedMaxAdjustDown (params : Params) (nHeightNext : Nat) : Nat :=
  match epochIndex params nHeightNext with
  | 1 => params.nMaxAdjustDown_Version1
  | 2 => params.nMaxAdjustDown_Version2
  | _ => params.nMaxAdjustDown_Version3

/-- The static bounds in force are those the initialisers derive from `params`: no
call has initialised them yet, or an earlier call initialised them from the
same values. -/
def StaticState.boundsOf (s : StaticState) (params : Params) : Prop :=
  s.calculateNextWorkRequired.getD (ActualTimespans.init params) = ActualTimespans.init params

/-! ## `pow.cpp` -/

/-- The ways a call can fail: `assert(pindexFirst)`, and a division or modulo by
zero (undefined for `%` on `unsigned int`, `uint_error` for `arith_uint256`). -/
inductive Failure where
  | assertion
  | divisionByZero
  deriving DecidableEq, Repr

/-- The "limit adjustment step" of `CalculateNextWorkRequired` (lines 155-158):
both comparisons are against `nMinActualTimespan`. -/
def limitAdjustmentStep (nActualTimespan : Int) (nMinActualTimespan : Nat) : Int :=
  let nActualTimespan :=
    if nActualTimespan < (nMinActualTimespan : Int) then (nMinActualTimespan : Int)
    else nActualTimespan
  if nActualTimespan > (nMinActualTimespan : Int) then (nMinActualTimespan : Int)
  else nActualTimespan

/-- Modelled from the spec: `arith_uint256::operator>>=` by one bit, absent from the
sources. -/
def shiftRight1 (a : Nat) : Nat := a / 2

/-- Modelled from the spec: `arith_uint256::operator<<=` by one bit, absent from the
sources: the bit shifted out of the 256-bit word is lost. -/
def shiftLeft1 (a : Nat) : Nat := a * 2 % U256

/-- Modelled from the spec: `arith_uint256::operator*=(uint32_t)`, absent from the
sources: the `int64_t` timespan converts to a 32-bit word and the product is
kept modulo `2^256`. -/
def mulWord (a : Nat) (b : Int) : Nat := a * toU32 b % U256

/-- Modelled from the spec: `arith_uint256::operator/=`, absent from the sources:
integer division, `none` for the `uint_error` thrown on a zero divisor. -/
def divBig (a b : Nat) : Option Nat := if b = 0 then none else some (a / b)

/-- The retarget arithmetic of `CalculateNextWorkRequired` (lines 161-172) on the
decoded old target: the optional one-bit shift around the multiplication by
the timespan and the division by the averaging target timespan. -/
def retarget (bnOld : Nat) (nActualTimespan : Int) (nAveragingTargetTimespan : Nat) :
    Option Nat :=
  let fShift := decide (bits bnOld > 235)
  let bnNew := if fShift then shiftRight1 bnOld else bnOld
  let bnNew := mulWord bnNew nActualTimespan
  match divBig bnNew nAveragingTargetTimespan with
  | none => none
  | some bnNew => some (if fShift then shiftLeft1 bnNew else bnNew)

deriving instance DecidableEq for Except

/-- The function `CalculateNextWorkRequired` (lines 106-179), from a static state to
its result and the static state it leaves. -/
def CalculateNextWorkRequired (s : StaticState) (pindexLast : CBlockIndex)
    (nFirstBlockTime : Int) (params : Params) : Except Failure Nat × StaticState :=
  if params.fPowNoRetargeting then (.ok pindexLast.nBits, s)
  else
    let st := s.calculateNextWorkRequired.getD (ActualTimespans.init params)
    let s1 : StaticState := { s with calculateNextWorkRequired := some st }
    let sel := selectVersion st params (pindexLast.nHeight + 1)
    let nActualTimespan :=
      limitAdjustmentStep (pindexLast.GetBlockTime - nFirstBlockTime) sel.nMinActualTimespan
    match retarget (SetCompact pindexLast.nBits).magnitude nActualTimespan
        sel.nAveragingTargetTimespan with
    | none => (.error .divisionByZero, s1)
    | some bnNew =>
      let bnNew := if bnNew > params.powLimit then params.powLimit else bnNew
      (.ok (GetCompact bnNew), s1)

/-- The loop of lines 80-83: the last block that is not a special
minimum-difficulty block. -/
def lastNonMinDifficulty (nInterval nProofOfWorkLimit : Nat) : CBlockIndex → Nat
  | .mk nHeight _ nBits (some pprev) =>
    if nHeight % nInterval ≠ 0 ∧ nBits = nProofOfWorkLimit then
      lastNonMinDifficulty nInterval nProofOfWorkLimit pprev
    else nBits
  | .mk _ _ nBits none => nBits

/-- The function `GetNextWorkRequired` (lines 14-104), from a static state to its
result and the static state it leaves; `pindexLast = none` is the null pointer.
The product and the sum of line 75 are `int64_t` operations: each is reduced
to 64 bits, which leaves it unchanged when it is in range (C++ defines the
operation only then). -/
def GetNextWorkRequired (s : StaticState) (pindexLast : Option CBlockIndex)
    (pblock : CBlockHeader) (params : Params) : Except Failure Nat × StaticState :=
  let st := s.getNextWorkRequired.getD (ActualTimespans.init params)
  let s1 : StaticState := { s with getNextWorkRequired := some st }
  let nProofOfWorkLimit := GetCompact params.powLimit
  match pindexLast with
  | none => (.ok nProofOfWorkLimit, s1)
  | some pindexLast =>
    let sel := selectVersion st params (pindexLast.nHeight + 1)
    if sel.nInterval = 0 then (.error .divisionByZero, s1)
    else if (pindexLast.nHeight + 1) % sel.nInterval ≠ 0 then
      if params.fPowAllowMinDifficultyBlocks then
        if pblock.GetBlockTime >
            toInt64 (pindexLast.GetBlockTime + toInt64 (params.nPowTargetSpacing * 2)) then
          (.ok nProofOfWorkLimit, s1)
        else (.ok (lastNonMinDifficulty sel.nInterval nProofOfWorkLimit pindexLast), s1)
      else (.ok pindexLast.nBits, s1)
    else
      let blockstogoback : Int := toInt32 (subU32 sel.nAveragingInterval 1)
      let blockstogoback : Int :=
        if pindexLast.nHeight + 1 ≠ sel.nAveragingInterval then toInt32 sel.nAveragingInterval
        else blockstogoback
      match stepBack blockstogoback.toNat (some pindexLast) with
      | none => (.error .assertion, s1)
      | some pindexFirst =>
        CalculateNextWorkRequired s1 pindexLast pindexFirst.GetBlockTime params

/-- The function `CheckProofOfWork` (lines 181-198); `hash` is the block hash read as
a 256-bit unsigned integer. -/
def CheckProofOfWork (hash : Nat) (nBits : Nat) (params : Params) : Bool :=
  let d := SetCompact nBits
  if d.fNegative ∨ d.magnitude = 0 ∨ d.fOverflow ∨ d.magnitude > params.powLimit then false
  else if hash > d.magnitude then false
  else true

/-! ## Test data: the main-network shape of epoch 1 -/

/-- A parameter record with the main network's heights, intervals, timespans and
ceiling, and the given maximum adjustment percentages in every epoch. -/
def sampleParams (nMaxAdjustUp nMaxAdjustDown : Nat) : Params :=
  { powLimit := 2 ^ 236 - 1
    fPowAllowMinDifficultyBlocks := false
    fPowNoRetargeting := false
    nPowTargetSpacing := 40
    nPowTargetTimespan_Version1 := 3600
    nInterval_Version1 := 90
    nHeight_Version2 := 208440
    nInterval_Version2 := 15
    nPowTargetTimespan_Version2 := 600
    nHeight_Version3 := 426000
    nInterval_Version3 := 1
    nPowTargetTimespan_Version3 := 40
    nMaxAdjustDown_Version1 := nMaxAdjustDown
    nMaxAdjustUp_Version1 := nMaxAdjustUp
    nMaxAdjustDown_Version2 := nMaxAdjustDown
    nMaxAdjustUp_Version2 := nMaxAdjustUp
    nMaxAdjustDown_Version3 := nMaxAdjustDown
    nMaxAdjustUp_Version3 := nMaxAdjustUp
    nAveragingInterval_Version1 := 90
    nAveragingInterval_Version2 := 15
    nAveragingInterval_Version3 := 6
    nAveragingTargetTimespan_Version1 := 3600
    nAveragingTargetTimespan_Version2 := 600
    nAveragingTargetTimespan_Version3 := 240 }

/-- The chain of `n + 1` headers of heights `0..n` whose timestamps start at `t0`
and are `nSpacing` seconds apart and whose compact targets are all `T`. -/
def uniformChain (T t0 nSpacing : Nat) : Nat → CBlockIndex
  | 0 => .mk 0 t0 T none
  | n + 1 => .mk (n + 1) (t0 + nSpacing * (n + 1)) T (some (uniformChain T t0 nSpacing n))

/-- The chain of 90 headers of heights `0..89` with constant target `T` whose first
89 timestamps are 80 s apart and whose tip is 7200 s after the root. -/
def stretchedChain (T t0 : Nat) : CBlockIndex :=
  .mk 89 (t0 + 7200) T (some (uniformChain T t0 80 88))

/-- The record of the test network as `chainparams.cpp` (lines 212-226) leaves it:
the ceiling, the spacing and the two flags are set, and none of the
`_VersionN` fields is assigned, so that they keep the zero of static storage. -/
def testNetParams : Params :=
  { powLimit := 2 ^ 236 - 1
    fPowAllowMinDifficultyBlocks := true
    fPowNoRetargeting := false
    nPowTargetSpacing := 40
    nPowTargetTimespan_Version1 := 0
    nInterval_Version1 := 0
    nHeight_Version2 := 0
    nInterval_Version2 := 0
    nPowTargetTimespan_Version2 := 0
    nHeight_Version3 := 0
    nInterval_Version3 := 0
    nPowTargetTimespan_Version3 := 0
    nMaxAdjustDown_Version1 := 0
    nMaxAdjustUp_Version1 := 0
    nMaxAdjustDown_Version2 := 0
    nMaxAdjustUp_Version2 := 0
    nMaxAdjustDown_Version3 := 0
    nMaxAdjustUp_Version3 := 0
    nAveragingInterval_Version1 := 0
    nAveragingInterval_Version2 := 0
    nAveragingInterval_Version3 := 0
    nAveragingTargetTimespan_Version1 := 0
    nAveragingTargetTimespan_Version2 := 0
    nAveragingTargetTimespan_Version3 := 0 }

/-! ## Chain shape -/

/-- The number of ancestors of a header reachable by parent links. -/
def numAncestors : CBlockIndex → Nat
  | .mk _ _ _ none => 0
  | .mk _ _ _ (some pprev) => numAncestors pprev + 1

/-- A well-formed chain: the root has height 0 and no parent, and the height of
every other header is the height of its parent plus 1. -/
def WellFormedChain : CBlockIndex → Prop
  | .mk nHeight _ _ none => nHeight = 0
  | .mk nHeight _ _ (some pprev) => nHeight = pprev.nHeight + 1 ∧ WellFormedChain pprev

/-- The condition that ends the minimum-difficulty walk of line 81 at a header: it
has no parent, or its height is a multiple of the interval, or its `nBits` is
not the compact ceiling. -/
def stopsWalk (nInterval nProofOfWorkLimit : Nat) (b : CBlockIndex) : Prop :=
  b.pprev = none ∨ b.nHeight % nInterval = 0 ∨ b.nBits ≠ nProofOfWorkLimit

/-! ## Lemmas on the codec, the chain and the retarget arithmetic -/

/-- The sample record holds values of the C++ field types. -/
theorem sampleParams_inRange : (sampleParams 75 300).InRange := by
  unfold Params.InRange
  decide

/-- The scan returns the bit length of any value below `2^n`. -/
theorem bitsFrom_spec (n v : Nat) (hv : v < 2 ^ n) :
    v < 2 ^ bitsFrom n v ∧ (v ≠ 0 → 2 ^ (bitsFrom n v - 1) ≤ v) ∧ bitsFrom n v ≤ n := by
  induction n with
  | zero =>
    have : v = 0 := by simpa using hv
    subst this
    simp [bitsFrom]
  | succ n ih =>
    have hpos : 0 < 2 ^ n := Nat.two_pow_pos n
    have h2 : v / 2 ^ n < 2 := by
      apply Nat.div_lt_of_lt_mul
      rw [← Nat.pow_succ]; exact hv
    unfold bitsFrom
    by_cases hb : v / 2 ^ n % 2 = 1
    · rw [if_pos hb]
      refine ⟨hv, fun _ => ?_, le_rfl⟩
      have h1 : 1 ≤ v / 2 ^ n := by
        generalize v / 2 ^ n = q at hb
        omega
      have := (Nat.le_div_iff_mul_le hpos).mp h1
      simpa using this
    · rw [if_neg hb]
      have h0 : v / 2 ^ n = 0 := by
        generalize v / 2 ^ n = q at hb h2
        omega
      have hlt : v < 2 ^ n := by
        by_contra hge
        have : 1 ≤ v / 2 ^ n := (Nat.le_div_iff_mul_le hpos).mpr (by omega)
        omega
      obtain ⟨a, b, c⟩ := ih hlt
      exact ⟨a, b, by omega⟩

/-- The function `bits` is the bit length of every 256-bit value. -/
theorem bits_spec (v : Nat) (hv : v < U256) :
    v < 2 ^ bits v ∧ (v ≠ 0 → 2 ^ (bits v - 1) ≤ v) ∧ bits v ≤ 256 :=
  bitsFrom_spec 256 v hv

/-- Decoding a compact value given by its mantissa and exponent. -/
theorem SetCompact_parts (c e : Nat) (hc : c < 2 ^ 23) :
    SetCompact (c + e * 2 ^ 24) =
      { magnitude := if e ≤ 3 then c / 2 ^ (8 * (3 - e)) else c * 2 ^ (8 * (e - 3)) % U256
        fNegative := false
        fOverflow := decide ((if e ≤ 3 then c / 2 ^ (8 * (3 - e)) else c) ≠ 0 ∧
          (e > 34 ∨ ((if e ≤ 3 then c / 2 ^ (8 * (3 - e)) else c) > 0xff ∧ e > 33) ∨
            ((if e ≤ 3 then c / 2 ^ (8 * (3 - e)) else c) > 0xffff ∧ e > 32))) } := by
  have h1 : (c + e * 2 ^ 24) / 2 ^ 24 = e := by omega
  have h2 : (c + e * 2 ^ 24) % 2 ^ 23 = c := by omega
  have h3 : (c + e * 2 ^ 24) / 2 ^ 23 % 2 = 0 := by omega
  unfold SetCompact
  simp only [h1, h2, h3]
  by_cases he : e ≤ 3 <;> simp [he]

/-- The shape of an encoding: a 23-bit mantissa `c` and an exponent `e ≤ 33` whose
value `c * 256^(e-3)` does not exceed the encoded magnitude. -/
theorem GetCompact_parts (v : Nat) (hv : v < U256) :
    ∃ c e, GetCompact v = c + e * 2 ^ 24 ∧ c < 2 ^ 23 ∧ e ≤ 33 ∧ (32 < e → c < 2 ^ 16) ∧
      (e ≤ 3 → c / 2 ^ (8 * (3 - e)) ≤ v) ∧ (3 < e → c * 2 ^ (8 * (e - 3)) ≤ v) := by
  obtain ⟨hlt, -, hle⟩ := bits_spec v hv
  have hn : (bits v + 7) / 8 ≤ 32 := by omega
  have hv8 : v < 2 ^ (8 * ((bits v + 7) / 8)) :=
    lt_of_lt_of_le hlt (Nat.pow_le_pow_right (by norm_num) (by omega))
  unfold GetCompact
  generalize (bits v + 7) / 8 = n at hn hv8
  by_cases h3 : n ≤ 3
  · simp only [if_pos h3]
    have hm : v % 2 ^ 64 * 2 ^ (8 * (3 - n)) % U32 = v * 2 ^ (8 * (3 - n)) := by
      interval_cases n <;> simp only [U32] <;> norm_num at hv8 ⊢ <;> omega
    rw [hm]
    split_ifs with hb
    · refine ⟨v * 2 ^ (8 * (3 - n)) / 2 ^ 8, n + 1, rfl, ?_, ?_, ?_, ?_, ?_⟩ <;>
        interval_cases n <;> norm_num at hv8 hb ⊢ <;> omega
    · refine ⟨v * 2 ^ (8 * (3 - n)), n, rfl, ?_, ?_, ?_, ?_, ?_⟩ <;>
        interval_cases n <;> norm_num at hv8 hb ⊢ <;> omega
  · simp only [if_neg h3]
    have hq : v / 2 ^ (8 * (n - 3)) < 2 ^ 24 := by
      apply Nat.div_lt_of_lt_mul
      rw [← Nat.pow_add]
      have h8 : 8 * (n - 3) + 24 = 8 * n := by omega
      rw [h8]
      exact hv8
    have hqv : v / 2 ^ (8 * (n - 3)) * 2 ^ (8 * (n - 3)) ≤ v := Nat.div_mul_le_self _ _
    generalize v / 2 ^ (8 * (n - 3)) = q at hq hqv ⊢
    have hm : q % 2 ^ 64 % U32 = q := by
      simp only [U32]
      omega
    rw [hm]
    split_ifs with hb
    · refine ⟨q / 2 ^ 8, n + 1, rfl, by omega, by omega, fun _ => by omega, fun h => by omega,
        fun _ => ?_⟩
      have h8 : 8 * (n + 1 - 3) = 8 + 8 * (n - 3) := by omega
      rw [h8, Nat.pow_add, ← Nat.mul_assoc]
      exact le_trans (Nat.mul_le_mul_right _ (Nat.div_mul_le_self _ _)) hqv
    · exact ⟨q, n, rfl, by omega, by omega, fun h => by omega, fun h => by omega, fun _ => hqv⟩

/-- Decoding an encoding never gives more than the encoded magnitude, and is
neither negative nor overflowed. -/
theorem SetCompact_GetCompact_le (v : Nat) (hv : v < U256) :
    (SetCompact (GetCompact v)).magnitude ≤ v ∧ (SetCompact (GetCompact v)).fNegative = false ∧
      (SetCompact (GetCompact v)).fOverflow = false := by
  obtain ⟨c, e, hg, hc, he, h16, hlo, hhi⟩ := GetCompact_parts v hv
  rw [hg, SetCompact_parts c e hc]
  refine ⟨?_, rfl, ?_⟩
  · by_cases h3 : e ≤ 3
    · simpa [h3] using hlo h3
    · simp only [if_neg h3]
      exact le_trans (Nat.mod_le _ _) (hhi (by omega))
  · by_cases h3 : e ≤ 3
    · simp only [if_pos h3, decide_eq_false_iff_not]
      omega
    · simp only [if_neg h3, decide_eq_false_iff_not]
      by_cases h32 : 32 < e
      · have := h16 h32
        omega
      · omega


/-- The retarget arithmetic fails exactly on a zero divisor. -/
theorem retarget_eq_none_iff (bnOld : Nat) (nActualTimespan : Int) (t : Nat) :
    retarget bnOld nActualTimespan t = none ↔ t = 0 := by
  unfold retarget divBig
  by_cases h : t = 0 <;> simp [h]

/-- The retarget arithmetic stays within 256 bits. -/
theorem retarget_lt (bnOld : Nat) (nActualTimespan : Int) (t r : Nat)
    (h : retarget bnOld nActualTimespan t = some r) : r < U256 := by
  have hpos : 0 < U256 := by simp [U256]
  unfold retarget divBig shiftLeft1 mulWord at h
  by_cases ht : t = 0
  · simp [ht] at h
  · simp only [if_neg ht, Option.some.injEq] at h
    subst h
    split_ifs
    · exact Nat.mod_lt _ hpos
    · exact lt_of_le_of_lt (Nat.div_le_self _ _) (Nat.mod_lt _ hpos)

/-- The retarget interval does not depend on the static bounds. -/
theorem selectVersion_nInterval (st st' : ActualTimespans) (params : Params) (n : Nat) :
    (selectVersion st params n).nInterval = (selectVersion st' params n).nInterval := by
  unfold selectVersion epochIndex
  split_ifs <;> rfl

/-- The averaging target timespan does not depend on the static bounds. -/
theorem selectVersion_nAveragingTargetTimespan (st st' : ActualTimespans) (params : Params)
    (n : Nat) :
    (selectVersion st params n).nAveragingTargetTimespan =
      (selectVersion st' params n).nAveragingTargetTimespan := by
  unfold selectVersion epochIndex
  split_ifs <;> rfl

/-- The limit step always ends on the minimum bound. -/
theorem limitAdjustmentStep_eq (nActualTimespan : Int) (nMinActualTimespan : Nat) :
    limitAdjustmentStep nActualTimespan nMinActualTimespan = (nMinActualTimespan : Int) := by
  simp only [limitAdjustmentStep]
  split_ifs <;> omega

/-- The tip of a uniform chain of `n + 1` headers has height `n`. -/
theorem uniformChain_nHeight (T t0 sp n : Nat) : (uniformChain T t0 sp n).nHeight = n := by
  cases n <;> rfl

/-- Every tip of a uniform chain carries the common target. -/
theorem uniformChain_nBits (T t0 sp n : Nat) : (uniformChain T t0 sp n).nBits = T := by
  cases n <;> rfl

/-- Walking `k` links back on a uniform chain reaches the header `k` heights below. -/
theorem stepBack_uniformChain (T t0 sp k n : Nat) :
    stepBack k (some (uniformChain T t0 sp (n + k))) = some (uniformChain T t0 sp n) := by
  induction k with
  | zero => rfl
  | succ k ih =>
    show stepBack k (uniformChain T t0 sp (n + k + 1)).pprev = _
    exact ih

/-- Zero has no set bit. -/
theorem bitsFrom_zero (n : Nat) : bitsFrom n 0 = 0 := by
  induction n with
  | zero => rfl
  | succ n ih => simp [bitsFrom, ih]

/-- The bit length of zero is zero. -/
theorem bits_zero : bits 0 = 0 := bitsFrom_zero 256

/-- A bit length above `k` means a value of at least `2^k`. -/
theorem le_of_bits_gt (m k : Nat) (hm : m < U256) (hb : bits m > k) : 2 ^ k ≤ m := by
  obtain ⟨-, h2, -⟩ := bits_spec m hm
  have hne : m ≠ 0 := by
    rintro rfl
    rw [bits_zero] at hb
    omega
  exact le_trans (Nat.pow_le_pow_right (by norm_num) (by omega)) (h2 hne)

/-- A bit length of at most `k` means a value below `2^k`. -/
theorem lt_of_bits_le (m k : Nat) (hm : m < U256) (hb : bits m ≤ k) : m < 2 ^ k := by
  obtain ⟨h1, -, -⟩ := bits_spec m hm
  exact lt_of_lt_of_le h1 (Nat.pow_le_pow_right (by norm_num) hb)

/-- A decoded magnitude of 24 bits or more is a multiple of 256, hence even. -/
theorem SetCompact_magnitude_even (nCompact : Nat)
    (h : 2 ^ 23 ≤ (SetCompact nCompact).magnitude) : (SetCompact nCompact).magnitude % 2 = 0 := by
  simp only [SetCompact] at h ⊢
  by_cases h3 : nCompact / 2 ^ 24 ≤ 3
  · simp only [if_pos h3] at h
    have h1 : nCompact % 2 ^ 23 / 2 ^ (8 * (3 - nCompact / 2 ^ 24)) ≤ nCompact % 2 ^ 23 :=
      Nat.div_le_self _ _
    omega
  · simp only [if_neg h3]
    have h8 : 2 ^ (8 * (nCompact / 2 ^ 24 - 3)) = 2 ^ (8 * (nCompact / 2 ^ 24 - 4) + 7) * 2 := by
      rw [← Nat.pow_succ]
      congr 1
      omega
    rw [h8, ← Nat.mul_assoc]
    generalize nCompact % 2 ^ 23 * 2 ^ (8 * (nCompact / 2 ^ 24 - 4) + 7) = y
    simp only [U256]
    omega

/-- Scaling by 3600/3600 gives the old magnitude back when the shifted product fits. -/
theorem retarget_same (m : Nat) (hm : m < 2 ^ 245) (hev : bits m > 235 → m % 2 = 0) :
    retarget m 3600 3600 = some m := by
  have hm256 : m < U256 := lt_of_lt_of_le hm (by simp [U256])
  have h36 : toU32 3600 = 3600 := by decide
  have h5 : m % U256 = m := Nat.mod_eq_of_lt hm256
  unfold retarget divBig shiftLeft1 shiftRight1 mulWord
  rw [h36]
  by_cases hb : bits m > 235
  · have he := hev hb
    have h1 : m / 2 * 3600 < U256 := by
      simp only [U256]
      omega
    have h4 : m / 2 * 2 = m := by omega
    simp [hb, Nat.mod_eq_of_lt h1, h4, h5]
  · have hlt := lt_of_bits_le m 235 hm256 (by omega)
    have h1 : m * 3600 < U256 := by
      simp only [U256]
      omega
    simp [hb, Nat.mod_eq_of_lt h1]

/-! ## Proof-of-work verification -/

/-- C1: `CheckProofOfWork` returns true exactly when the decoding of `nBits` is not
negative, not overflowed, non-zero, at most `powLimit`, and the hash is at most
the decoded magnitude; the comparison is inclusive, so the verdict for a hash
equal to the decoded target is exactly the well-formedness of `nBits`. -/
theorem checkProofOfWork_iff (hash nBits : Nat) (params : Params) :
    (CheckProofOfWork hash nBits params = true ↔
      ((SetCompact nBits).fNegative = false ∧ (SetCompact nBits).fOverflow = false ∧
        (SetCompact nBits).magnitude ≠ 0 ∧ (SetCompact nBits).magnitude ≤ params.powLimit ∧
        hash ≤ (SetCompact nBits).magnitude)) ∧
    (CheckProofOfWork (SetCompact nBits).magnitude nBits params = true ↔
      ((SetCompact nBits).fNegative = false ∧ (SetCompact nBits).fOverflow = false ∧
        (SetCompact nBits).magnitude ≠ 0 ∧ (SetCompact nBits).magnitude ≤ params.powLimit)) := by
  have key : ∀ hash : Nat, CheckProofOfWork hash nBits params = true ↔
      ((SetCompact nBits).fNegative = false ∧ (SetCompact nBits).fOverflow = false ∧
        (SetCompact nBits).magnitude ≠ 0 ∧ (SetCompact nBits).magnitude ≤ params.powLimit ∧
        hash ≤ (SetCompact nBits).magnitude) := by
    intro hash
    unfold CheckProofOfWork
    cases hn : (SetCompact nBits).fNegative <;> cases ho : (SetCompact nBits).fOverflow <;>
      by_cases hz : (SetCompact nBits).magnitude = 0 <;>
      by_cases hl : (SetCompact nBits).magnitude ≤ params.powLimit <;>
      by_cases hh : hash ≤ (SetCompact nBits).magnitude <;>
      simp [hn, ho, hz, hl, hh, Nat.not_le.mp, Nat.not_lt.mpr]
  refine ⟨key hash, ?_⟩
  rw [key]
  simp

/-- C2: `CheckProofOfWork` is false, for every hash and parameter record, whenever
the decoding of `nBits` is overflowed, negative or zero. -/
theorem checkProofOfWork_malformed (hash nBits : Nat) (params : Params)
    (h : (SetCompact nBits).fOverflow = true ∨ (SetCompact nBits).fNegative = true ∨
      (SetCompact nBits).magnitude = 0) :
    CheckProofOfWork hash nBits params = false := by
  unfold CheckProofOfWork
  rcases h with h | h | h <;> simp [h]

/-- The compact value `0x01800000` is malformed (it decodes to zero) and is rejected. -/
theorem checkProofOfWork_malformed_witness :
    ((SetCompact 0x01800000).fOverflow = true ∨ (SetCompact 0x01800000).fNegative = true ∨
      (SetCompact 0x01800000).magnitude = 0) ∧
    CheckProofOfWork 0 0x01800000 (sampleParams 75 300) = false :=
  ⟨by decide, checkProofOfWork_malformed 0 0x01800000 (sampleParams 75 300) (by decide)⟩

/-! ## Version selection -/

/-- C5: with `nHeight_Version2 <= nHeight_Version3`, the block after a parent of
height `h` uses version 1 below `nHeight_Version2`, version 2 from there up to
`nHeight_Version3`, version 3 from there on; the selected averaging window,
retarget interval and averaging target timespan are the fields of that
version, and exactly one of the three height conditions holds. -/
theorem selectVersion_thresholds (st : ActualTimespans) (params : Params) (h : Nat)
    (hle : params.nHeight_Version2 ≤ params.nHeight_Version3) :
    (h + 1 < params.nHeight_Version2 →
      epochIndex params (h + 1) = 1 ∧
      (selectVersion st params (h + 1)).nAveragingInterval = params.nAveragingInterval_Version1 ∧
      (selectVersion st params (h + 1)).nInterval = params.nInterval_Version1 ∧
      (selectVersion st params (h + 1)).nAveragingTargetTimespan =
        params.nAveragingTargetTimespan_Version1) ∧
    (params.nHeight_Version2 ≤ h + 1 ∧ h + 1 < params.nHeight_Version3 →
      epochIndex params (h + 1) = 2 ∧
      (selectVersion st params (h + 1)).nAveragingInterval = params.nAveragingInterval_Version2 ∧
      (selectVersion st params (h + 1)).nInterval = params.nInterval_Version2 ∧
      (selectVersion st params (h + 1)).nAveragingTargetTimespan =
        params.nAveragingTargetTimespan_Version2) ∧
    (params.nHeight_Version3 ≤ h + 1 →
      epochIndex params (h + 1) = 3 ∧
      (selectVersion st params (h + 1)).nAveragingInterval = params.nAveragingInterval_Version3 ∧
      (selectVersion st params (h + 1)).nInterval = params.nInterval_Version3 ∧
      (selectVersion st params (h + 1)).nAveragingTargetTimespan =
        params.nAveragingTargetTimespan_Version3) ∧
    ((h + 1 < params.nHeight_Version2 ∧
        ¬(params.nHeight_Version2 ≤ h + 1 ∧ h + 1 < params.nHeight_Version3) ∧
        ¬params.nHeight_Version3 ≤ h + 1) ∨
      (¬h + 1 < params.nHeight_Version2 ∧
        (params.nHeight_Version2 ≤ h + 1 ∧ h + 1 < params.nHeight_Version3) ∧
        ¬params.nHeight_Version3 ≤ h + 1) ∨
      (¬h + 1 < params.nHeight_Version2 ∧
        ¬(params.nHeight_Version2 ≤ h + 1 ∧ h + 1 < params.nHeight_Version3) ∧
        params.nHeight_Version3 ≤ h + 1)) := by
  refine ⟨?_, ?_, ?_, ?_⟩
  · intro h1
    simp [selectVersion, epochIndex, versionFields, h1]
  · rintro ⟨h2, h3⟩
    have h1 : ¬h + 1 < params.nHeight_Version2 := by omega
    simp [selectVersion, epochIndex, versionFields, h1, h3]
  · intro h3
    have h1 : ¬h + 1 < params.nHeight_Version2 := by omega
    have h2 : ¬h + 1 < params.nHeight_Version3 := by omega
    simp [selectVersion, epochIndex, versionFields, h1, h2]
  · omega

/-- On the main-network record the block at height 208440 is the first of version 2. -/
theorem selectVersion_thresholds_witness :
    (sampleParams 75 300).nHeight_Version2 ≤ (sampleParams 75 300).nHeight_Version3 ∧
    epochIndex (sampleParams 75 300) (208439 + 1) = 2 ∧
    (selectVersion (ActualTimespans.init (sampleParams 75 300)) (sampleParams 75 300)
      (208439 + 1)).nInterval = 15 :=
  ⟨by decide,
    ((selectVersion_thresholds (ActualTimespans.init (sampleParams 75 300)) (sampleParams 75 300)
      208439 (by decide)).2.1 (by decide)).1,
    by decide⟩

/-- C6: the index of the selected version never decreases with the height, for every
parameter record (whatever the order of its two transition heights), and is
always 1, 2 or 3. -/
theorem epochIndex_mono (params : Params) (h1 h2 : Nat) (hlt : h1 < h2) :
    epochIndex params h1 ≤ epochIndex params h2 ∧
    1 ≤ epochIndex params h1 ∧ epochIndex params h2 ≤ 3 := by
  unfold epochIndex
  split_ifs <;> omega

/-- Heights 208439 and 426000 of the main-network record: versions 1 and 3. -/
theorem epochIndex_mono_witness :
    (208439 : Nat) < 426000 ∧
    epochIndex (sampleParams 75 300) 208439 ≤ epochIndex (sampleParams 75 300) 426000 :=
  ⟨by decide, (epochIndex_mono (sampleParams 75 300) 208439 426000 (by decide)).1⟩

/-! ## `GetNextWorkRequired`: the paths without recalculation -/

/-- C3: with no parent, `GetNextWorkRequired` returns the compact encoding of
`powLimit`, for every candidate, parameter record and static state. -/
theorem getNextWorkRequired_genesis (s : StaticState) (pblock : CBlockHeader)
    (params : Params) :
    (GetNextWorkRequired s none pblock params).1 = .ok (GetCompact params.powLimit) := by
  simp [GetNextWorkRequired]

/-- C4 (as stated, refuted): with `nInterval_Version1 = 0` the height 5 is not a
multiple of the selected interval and minimum difficulty is off, yet the call
does not return the parent's `nBits`: the modulo of line 68 divides by zero. -/
theorem getNextWorkRequired_offBoundary_zero_interval :
    ({ sampleParams 75 300 with nInterval_Version1 := 0 } : Params).fPowAllowMinDifficultyBlocks
      = false ∧
    ¬ (selectVersion (ActualTimespans.init { sampleParams 75 300 with nInterval_Version1 := 0 })
        { sampleParams 75 300 with nInterval_Version1 := 0 }
        ((uniformChain 0x1e0ffff0 1000 40 4).nHeight + 1)).nInterval ∣
      (uniformChain 0x1e0ffff0 1000 40 4).nHeight + 1 ∧
    (GetNextWorkRequired StaticState.fresh (some (uniformChain 0x1e0ffff0 1000 40 4)) ⟨1200⟩
      { sampleParams 75 300 with nInterval_Version1 := 0 }).1 = .error .divisionByZero ∧
    (GetNextWorkRequired StaticState.fresh (some (uniformChain 0x1e0ffff0 1000 40 4)) ⟨1200⟩
      { sampleParams 75 300 with nInterval_Version1 := 0 }).1 ≠
      .ok (uniformChain 0x1e0ffff0 1000 40 4).nBits := by
  refine ⟨rfl, by decide, by decide, by decide⟩

/-- C4 (amended): for every parent, candidate and parameter record with
`fPowAllowMinDifficultyBlocks = false` and a non-zero selected retarget
interval, if `parent.height + 1` is not a multiple of that interval then
`GetNextWorkRequired` returns exactly the parent's `nBits`. -/
theorem getNextWorkRequired_offBoundary (s : StaticState) (st : ActualTimespans)
    (pindexLast : CBlockIndex) (pblock : CBlockHeader) (params : Params)
    (hmin : params.fPowAllowMinDifficultyBlocks = false)
    (hne : (selectVersion st params (pindexLast.nHeight + 1)).nInterval ≠ 0)
    (hoff : ¬ (selectVersion st params (pindexLast.nHeight + 1)).nInterval ∣
      pindexLast.nHeight + 1) :
    (GetNextWorkRequired s (some pindexLast) pblock params).1 = .ok pindexLast.nBits := by
  have hmod : (pindexLast.nHeight + 1) %
      (selectVersion st params (pindexLast.nHeight + 1)).nInterval ≠ 0 :=
    fun h0 => hoff (Nat.dvd_of_mod_eq_zero h0)
  rw [selectVersion_nInterval st
    (s.getNextWorkRequired.getD (ActualTimespans.init params))] at hne hmod
  simp only [GetNextWorkRequired]
  rw [if_neg hne, if_pos hmod]
  simp [hmin]

/-- On the main-network record the block after height 4 keeps the parent's target. -/
theorem getNextWorkRequired_offBoundary_witness :
    (sampleParams 75 300).fPowAllowMinDifficultyBlocks = false ∧
    (selectVersion (ActualTimespans.init (sampleParams 75 300)) (sampleParams 75 300)
      ((uniformChain 0x1e0ffff0 1000 40 4).nHeight + 1)).nInterval ≠ 0 ∧
    (GetNextWorkRequired StaticState.fresh (some (uniformChain 0x1e0ffff0 1000 40 4)) ⟨1200⟩
      (sampleParams 75 300)).1 = .ok 0x1e0ffff0 :=
  ⟨rfl, by decide,
    getNextWorkRequired_offBoundary StaticState.fresh (ActualTimespans.init (sampleParams 75 300))
      (uniformChain 0x1e0ffff0 1000 40 4) ⟨1200⟩ (sampleParams 75 300) rfl (by decide)
      (by decide)⟩

/-! ## `CalculateNextWorkRequired` -/

/-- C7 (the code at a failing input): on the main-network shape of epoch 1 with
`nMaxAdjustUp = 75` and `nMaxAdjustDown = 300` the bounds are 900 and 14400
seconds; a window of 7120 seconds lies between them, yet the limit step
replaces it by the minimum 900, and the target `0x1c0ffff0` is divided by
four instead of being scaled by 7120/3600. -/
theorem limitAdjustmentStep_above_min_failing :
    (selectVersion (ActualTimespans.init (sampleParams 75 300)) (sampleParams 75 300)
      ((uniformChain 0x1c0ffff0 1000 80 89).nHeight + 1)).nMinActualTimespan = 900 ∧
    (selectVersion (ActualTimespans.init (sampleParams 75 300)) (sampleParams 75 300)
      ((uniformChain 0x1c0ffff0 1000 80 89).nHeight + 1)).nMaxActualTimespan = 14400 ∧
    (uniformChain 0x1c0ffff0 1000 80 89).GetBlockTime - 1000 = 7120 ∧
    limitAdjustmentStep ((uniformChain 0x1c0ffff0 1000 80 89).GetBlockTime - 1000) 900 = 900 ∧
    (CalculateNextWorkRequired StaticState.fresh (uniformChain 0x1c0ffff0 1000 80 89) 1000
      (sampleParams 75 300)).1 = .ok 0x1c03fffc ∧
    GetCompact ((SetCompact 0x1c0ffff0).magnitude * 7120 / 3600) = 0x1c1fa4da := by
  refine ⟨by decide, by decide, by decide, by decide, by decide, by decide⟩

/-- C8: with `fPowNoRetargeting = false`, every compact target returned by
`CalculateNextWorkRequired` decodes to a magnitude that is not negative, not
overflowed and at most `powLimit`, for every parent, first-block time, static
state and parameter record; and a target is returned exactly when the
selected averaging target timespan is non-zero. -/
theorem calculateNextWorkRequired_le_powLimit (s : StaticState) (st : ActualTimespans)
    (pindexLast : CBlockIndex) (nFirstBlockTime : Int) (params : Params)
    (h : params.fPowNoRetargeting = false) :
    (∀ nBits, (CalculateNextWorkRequired s pindexLast nFirstBlockTime params).1 = .ok nBits →
      (SetCompact nBits).fNegative = false ∧ (SetCompact nBits).fOverflow = false ∧
        (SetCompact nBits).magnitude ≤ params.powLimit) ∧
    ((∃ nBits, (CalculateNextWorkRequired s pindexLast nFirstBlockTime params).1 = .ok nBits) ↔
      (selectVersion st params (pindexLast.nHeight + 1)).nAveragingTargetTimespan ≠ 0) := by
  rw [selectVersion_nAveragingTargetTimespan st
    (s.calculateNextWorkRequired.getD (ActualTimespans.init params))]
  simp only [CalculateNextWorkRequired, h]
  cases hr : retarget (SetCompact pindexLast.nBits).magnitude
      (limitAdjustmentStep (pindexLast.GetBlockTime - nFirstBlockTime)
        (selectVersion (s.calculateNextWorkRequired.getD (ActualTimespans.init params)) params
          (pindexLast.nHeight + 1)).nMinActualTimespan)
      (selectVersion (s.calculateNextWorkRequired.getD (ActualTimespans.init params)) params
        (pindexLast.nHeight + 1)).nAveragingTargetTimespan with
  | none =>
    have h0 := (retarget_eq_none_iff _ _ _).mp hr
    simp [h0]
  | some bnNew =>
    have hne : (selectVersion (s.calculateNextWorkRequired.getD (ActualTimespans.init params))
        params (pindexLast.nHeight + 1)).nAveragingTargetTimespan ≠ 0 := by
      intro h0
      rw [(retarget_eq_none_iff _ _ _).mpr h0] at hr
      cases hr
    have hlt := retarget_lt _ _ _ _ hr
    simp only [Bool.false_eq_true, if_false, Except.ok.injEq, exists_eq', ne_eq, hne,
      not_false_eq_true, iff_true, and_true]
    intro nBits hn
    subst hn
    have hv : (if bnNew > params.powLimit then params.powLimit else bnNew) < U256 := by
      split_ifs <;> omega
    obtain ⟨a, b, c⟩ := SetCompact_GetCompact_le _ hv
    refine ⟨b, c, le_trans a ?_⟩
    split_ifs <;> omega

/-- The recalculated target `0x1c03fffc` of the main-network shape is below the ceiling. -/
theorem calculateNextWorkRequired_le_powLimit_witness :
    (sampleParams 75 300).fPowNoRetargeting = false ∧
    (SetCompact 0x1c03fffc).magnitude ≤ (sampleParams 75 300).powLimit :=
  ⟨rfl, ((calculateNextWorkRequired_le_powLimit StaticState.fresh
    (ActualTimespans.init (sampleParams 75 300)) (uniformChain 0x1c0ffff0 1000 80 89) 1000
    (sampleParams 75 300) rfl).1 0x1c03fffc (by decide)).2.2⟩

/-- C9: with `fPowNoRetargeting` set, `CalculateNextWorkRequired` returns exactly the
parent's `nBits` (and leaves the static state untouched), for every parent and
first-block time. -/
theorem calculateNextWorkRequired_noRetargeting (s : StaticState) (pindexLast : CBlockIndex)
    (nFirstBlockTime : Int) (params : Params) (h : params.fPowNoRetargeting = true) :
    CalculateNextWorkRequired s pindexLast nFirstBlockTime params = (.ok pindexLast.nBits, s) := by
  simp [CalculateNextWorkRequired, h]

/-- A no-retargeting record returns the parent's target `0x1e0ffff0`. -/
theorem calculateNextWorkRequired_noRetargeting_witness :
    ({ sampleParams 75 300 with fPowNoRetargeting := true } : Params).fPowNoRetargeting = true ∧
    CalculateNextWorkRequired StaticState.fresh (uniformChain 0x1e0ffff0 1000 40 89) 1000
      { sampleParams 75 300 with fPowNoRetargeting := true } =
      (.ok (uniformChain 0x1e0ffff0 1000 40 89).nBits, StaticState.fresh) :=
  ⟨rfl, calculateNextWorkRequired_noRetargeting StaticState.fresh
    (uniformChain 0x1e0ffff0 1000 40 89) 1000
    { sampleParams 75 300 with fPowNoRetargeting := true } rfl⟩

/-! ## The steady-window scenario -/

/-- C10 (as stated, refuted): in the epoch-1 scenario with `nMaxAdjustUp = 75`, 90
headers 40 s apart with the canonical target `0x1c0ffff0` below the ceiling,
`GetNextWorkRequired` at height 90 returns `0x1c03fffc`, a quarter of the
target, not the target itself. -/
theorem getNextWorkRequired_steady_window_refuted :
    (sampleParams 75 300).nAveragingInterval_Version1 = 90 ∧
    (sampleParams 75 300).nInterval_Version1 = 90 ∧
    (sampleParams 75 300).nAveragingTargetTimespan_Version1 = 3600 ∧
    (sampleParams 75 300).nPowTargetSpacing = 40 ∧
    (sampleParams 75 300).fPowAllowMinDifficultyBlocks = false ∧
    (sampleParams 75 300).fPowNoRetargeting = false ∧
    90 < (sampleParams 75 300).nHeight_Version2 ∧
    GetCompact (SetCompact 0x1c0ffff0).magnitude = 0x1c0ffff0 ∧
    (SetCompact 0x1c0ffff0).magnitude ≤ (sampleParams 75 300).powLimit ∧
    (GetNextWorkRequired StaticState.fresh (some (uniformChain 0x1c0ffff0 1000 40 89)) ⟨4600⟩
      (sampleParams 75 300)).1 = .ok 0x1c03fffc ∧
    (GetNextWorkRequired StaticState.fresh (some (uniformChain 0x1c0ffff0 1000 40 89)) ⟨4600⟩
      (sampleParams 75 300)).1 ≠ .ok 0x1c0ffff0 := by
  refine ⟨rfl, rfl, rfl, rfl, rfl, rfl, by decide, by decide, by decide, by decide, by decide⟩

/-- C10 (amended): in the epoch-1 scenario (window 90, interval 90, averaging target
timespan 3600 s, both flags off, version-2 height above 90) with
`nMaxAdjustUp_Version1 = 0`, static bounds that are those of this parameter
record, and a canonical target `T` not above the ceiling whose magnitude is
below `2^245`, `GetNextWorkRequired` at height 90 over 90 headers 40 s apart
with constant target `T` returns `T`, for every `nMaxAdjustDown`. -/
theorem getNextWorkRequired_steady_window (s : StaticState) (params : Params) (T t0 : Nat)
    (pblock : CBlockHeader)
    (hA : params.nAveragingInterval_Version1 = 90)
    (hI : params.nInterval_Version1 = 90)
    (hT : params.nAveragingTargetTimespan_Version1 = 3600)
    (hmin : params.fPowAllowMinDifficultyBlocks = false)
    (hnr : params.fPowNoRetargeting = false)
    (hV2 : 90 < params.nHeight_Version2)
    (hup : params.nMaxAdjustUp_Version1 = 0)
    (hs : s.calculateNextWorkRequired.getD (ActualTimespans.init params) =
      ActualTimespans.init params)
    (hcanon : GetCompact (SetCompact T).magnitude = T)
    (hceil : (SetCompact T).magnitude ≤ params.powLimit)
    (hsmall : (SetCompact T).magnitude < 2 ^ 245) :
    (GetNextWorkRequired s (some (uniformChain T t0 40 89)) pblock params).1 = .ok T := by
  have hm256 : (SetCompact T).magnitude < U256 := lt_of_lt_of_le hsmall (by simp [U256])
  have hret : retarget (SetCompact T).magnitude 3600 3600 = some (SetCompact T).magnitude :=
    retarget_same _ hsmall (fun hb =>
      SetCompact_magnitude_even T
        (le_trans (by norm_num) (le_of_bits_gt _ 235 hm256 hb)))
  have hstep : stepBack 89 (some (uniformChain T t0 40 89)) = some (uniformChain T t0 40 0) :=
    stepBack_uniformChain T t0 40 89 0
  have hmin36 : toU32 (toInt32 (mulU32 3600 (subU32 100 0) / 100)) = 3600 := by decide
  have h89 : (toInt32 (subU32 90 1)).toNat = 89 := by decide
  have hminv : toU32 (s.calculateNextWorkRequired.getD
      (ActualTimespans.init params)).nMinActualTimespan_Version1 = 3600 := by
    rw [hs]
    simp only [ActualTimespans.init, hT, hup]
    exact hmin36
  simp only [GetNextWorkRequired, selectVersion, epochIndex, uniformChain_nHeight, hV2,
    if_true, versionFields, hI, hA, hmin]
  norm_num
  rw [h89, hstep]
  simp only [CalculateNextWorkRequired, hnr, selectVersion, epochIndex, uniformChain_nHeight,
    hV2, if_true, versionFields, hT, hminv, uniformChain_nBits, limitAdjustmentStep_eq]
  norm_num
  rw [hret]
  simp [hcanon, Nat.not_lt.mpr hceil]

/-- The scenario with `nMaxAdjustUp = 0` and the target `0x1c0ffff0`. -/
theorem getNextWorkRequired_steady_window_witness :
    (sampleParams 0 300).nMaxAdjustUp_Version1 = 0 ∧
    GetCompact (SetCompact 0x1c0ffff0).magnitude = 0x1c0ffff0 ∧
    (SetCompact 0x1c0ffff0).magnitude ≤ (sampleParams 0 300).powLimit ∧
    (GetNextWorkRequired StaticState.fresh (some (uniformChain 0x1c0ffff0 1000 40 89)) ⟨4600⟩
      (sampleParams 0 300)).1 = .ok 0x1c0ffff0 :=
  ⟨rfl, by decide, by decide,
    getNextWorkRequired_steady_window StaticState.fresh (sampleParams 0 300) 0x1c0ffff0 1000
      ⟨4600⟩ rfl rfl rfl rfl rfl (by decide) rfl rfl (by decide) (by decide) (by decide)⟩

/-- The steady-window scenario needs a magnitude that survives the shifted
multiplication: with `nMaxAdjustUp = 0` and the ceiling `2^255 - 1`, the
canonical target `0x207fffff` of 255 bits comes back as `0x1f2467ac`. -/
theorem steady_window_large_target_wraps :
    GetCompact (SetCompact 0x207fffff).magnitude = 0x207fffff ∧
    (SetCompact 0x207fffff).magnitude ≤ 2 ^ 255 - 1 ∧
    (GetNextWorkRequired StaticState.fresh (some (uniformChain 0x207fffff 1000 40 89)) ⟨4600⟩
      { sampleParams 0 300 with powLimit := 2 ^ 255 - 1 }).1 = .ok 0x1f2467ac := by
  refine ⟨by decide, by decide, by decide⟩

/-- The steady-window scenario needs static bounds of its own record: after a
recalculation under `nMaxAdjustUp = 75` the record with `nMaxAdjustUp = 0`
still scales by the earlier minimum of 900 seconds. -/
theorem steady_window_stale_bounds :
    (GetNextWorkRequired
      (CalculateNextWorkRequired StaticState.fresh (uniformChain 0x1c0ffff0 1000 40 89) 1000
        (sampleParams 75 300)).2
      (some (uniformChain 0x1c0ffff0 1000 40 89)) ⟨4600⟩ (sampleParams 0 300)).1 =
      .ok 0x1c03fffc := by
  decide

/-! ## The minimum-difficulty rule and the doubled window -/

/-- C11 (the code at a failing input): in the epoch-1 setup with `nMaxAdjustUp = 75`
and `nMaxAdjustDown = 300`, 90 headers of constant target `0x1c0ffff0` whose
window from the root to the tip spans 7200 s give `0x1c03fffc` at height 90:
a magnitude below that of the old target, where the doubled window asks for a
larger one (`0x1c1fffe0`, twice the old magnitude, within the factor 4). -/
theorem getNextWorkRequired_doubled_window_failing :
    stepBack 89 (some (stretchedChain 0x1c0ffff0 1000)) =
      some (uniformChain 0x1c0ffff0 1000 80 0) ∧
    (stretchedChain 0x1c0ffff0 1000).GetBlockTime -
      (uniformChain 0x1c0ffff0 1000 80 0).GetBlockTime = 7200 ∧
    (SetCompact 0x1c0ffff0).magnitude < (sampleParams 75 300).powLimit ∧
    (GetNextWorkRequired StaticState.fresh (some (stretchedChain 0x1c0ffff0 1000)) ⟨8300⟩
      (sampleParams 75 300)).1 = .ok 0x1c03fffc ∧
    (SetCompact 0x1c03fffc).magnitude < (SetCompact 0x1c0ffff0).magnitude ∧
    GetCompact ((SetCompact 0x1c0ffff0).magnitude * 7200 / 3600) = 0x1c1fffe0 ∧
    (SetCompact 0x1c0ffff0).magnitude < (SetCompact 0x1c1fffe0).magnitude ∧
    (SetCompact 0x1c1fffe0).magnitude ≤ (SetCompact 0x1c0ffff0).magnitude * (100 + 300) / 100 := by
  refine ⟨rfl, by decide, by decide, by decide, by decide, by decide, by decide, by decide⟩

/-- A value in the range of `int64_t` is its own 64-bit reduction. -/
theorem toInt64_of_range (i : Int) (hlo : -(2 ^ 63 : Int) ≤ i) (hhi : i < 2 ^ 63) :
    toInt64 i = i := by
  unfold toInt64
  omega

/-- When neither the product nor the sum of line 75 leaves the range of `int64_t`, the
64-bit sum is the mathematical one. -/
theorem lateBound_exact (pindexLast : CBlockIndex) (params : Params)
    (hrange : -(2 ^ 63 : Int) ≤ params.nPowTargetSpacing * 2 ∧
      pindexLast.GetBlockTime + params.nPowTargetSpacing * 2 < 2 ^ 63) :
    toInt64 (pindexLast.GetBlockTime + toInt64 (params.nPowTargetSpacing * 2)) =
      pindexLast.GetBlockTime + params.nPowTargetSpacing * 2 := by
  have h0 : (0 : Int) ≤ pindexLast.GetBlockTime := by
    simp only [CBlockIndex.GetBlockTime]
    exact Int.ofNat_nonneg _
  rw [toInt64_of_range (params.nPowTargetSpacing * 2) hrange.1 (by omega)]
  exact toInt64_of_range _ (by omega) hrange.2

/-- Off a retarget boundary with the minimum-difficulty rule on, a candidate more than
two spacings after its parent gets the compact ceiling, the sum of line 75
being in the range of `int64_t`. -/
theorem getNextWorkRequired_stalled (s : StaticState) (st : ActualTimespans)
    (pindexLast : CBlockIndex) (pblock : CBlockHeader) (params : Params)
    (hmin : params.fPowAllowMinDifficultyBlocks = true)
    (hne : (selectVersion st params (pindexLast.nHeight + 1)).nInterval ≠ 0)
    (hoff : ¬ (selectVersion st params (pindexLast.nHeight + 1)).nInterval ∣
      pindexLast.nHeight + 1)
    (ht : pblock.GetBlockTime > pindexLast.GetBlockTime + params.nPowTargetSpacing * 2)
    (hrange : -(2 ^ 63 : Int) ≤ params.nPowTargetSpacing * 2 ∧
      pindexLast.GetBlockTime + params.nPowTargetSpacing * 2 < 2 ^ 63) :
    (GetNextWorkRequired s (some pindexLast) pblock params).1 =
      .ok (GetCompact params.powLimit) := by
  rw [← lateBound_exact pindexLast params hrange] at ht
  have hmod : (pindexLast.nHeight + 1) %
      (selectVersion st params (pindexLast.nHeight + 1)).nInterval ≠ 0 :=
    fun h0 => hoff (Nat.dvd_of_mod_eq_zero h0)
  rw [selectVersion_nInterval st
    (s.getNextWorkRequired.getD (ActualTimespans.init params))] at hne hmod
  simp only [GetNextWorkRequired]
  rw [if_neg hne, if_pos hmod]
  simp [hmin, ht]

/-- Outside the range of `int64_t`, where C++ leaves the sum undefined, the 64-bit
values are not the mathematical ones.  With a spacing of `2^62` the product
`2 * spacing` reduces to `-2^63`, and a candidate that is not after
`parent.time + 2 * spacing` passes the test of line 75 and gets the compact
ceiling `0x1e0fffff`; with a spacing of `-2^62 - 2^31` the product reduces to
`2^63 - 2^32`, and a candidate that is after `parent.time + 2 * spacing`
fails the test and gets the parent's target `0x1c0ffff0`. -/
theorem lateBound_out_of_range :
    toInt64 ((2 ^ 62 : Int) * 2) = -(2 ^ 63) ∧
    (⟨1100⟩ : CBlockHeader).GetBlockTime ≤
      (uniformChain 0x1c0ffff0 1000 40 4).GetBlockTime + (2 ^ 62 : Int) * 2 ∧
    (GetNextWorkRequired StaticState.fresh (some (uniformChain 0x1c0ffff0 1000 40 4)) ⟨1100⟩
      { sampleParams 75 300 with
        fPowAllowMinDifficultyBlocks := true, nPowTargetSpacing := 2 ^ 62 }).1 =
      .ok 0x1e0fffff ∧
    toInt64 ((-(2 ^ 62) - 2 ^ 31 : Int) * 2) = 2 ^ 63 - 2 ^ 32 ∧
    (⟨1501⟩ : CBlockHeader).GetBlockTime >
      (uniformChain 0x1c0ffff0 1000 40 4).GetBlockTime + (-(2 ^ 62) - 2 ^ 31 : Int) * 2 ∧
    (GetNextWorkRequired StaticState.fresh (some (uniformChain 0x1c0ffff0 1000 40 4)) ⟨1501⟩
      { sampleParams 75 300 with
        fPowAllowMinDifficultyBlocks := true, nPowTargetSpacing := -(2 ^ 62) - 2 ^ 31 }).1 =
      .ok 0x1c0ffff0 := by
  refine ⟨by decide, by decide, by decide, by decide, by decide, by decide⟩

/-- C12 (as stated, refuted): on the test-network record, whose retarget intervals
are all zero, the minimum-difficulty flag is on, height 5 is not a multiple of
the selected interval and the candidate is more than two spacings late, yet
the call does not return the compact ceiling: line 68 divides by zero. -/
theorem getNextWorkRequired_minDifficulty_zero_interval :
    testNetParams.fPowAllowMinDifficultyBlocks = true ∧
    ¬ (selectVersion (ActualTimespans.init testNetParams) testNetParams
        ((uniformChain 0x1c0ffff0 1000 40 4).nHeight + 1)).nInterval ∣
      (uniformChain 0x1c0ffff0 1000 40 4).nHeight + 1 ∧
    (⟨1500⟩ : CBlockHeader).GetBlockTime >
      (uniformChain 0x1c0ffff0 1000 40 4).GetBlockTime + testNetParams.nPowTargetSpacing * 2 ∧
    (GetNextWorkRequired StaticState.fresh (some (uniformChain 0x1c0ffff0 1000 40 4)) ⟨1500⟩
      testNetParams).1 = .error .divisionByZero ∧
    (GetNextWorkRequired StaticState.fresh (some (uniformChain 0x1c0ffff0 1000 40 4)) ⟨1500⟩
      testNetParams).1 ≠ .ok (GetCompact testNetParams.powLimit) := by
  refine ⟨rfl, by decide, by decide, by decide, by decide⟩

/-- C12 (amended): for every parent, candidate and parameter record with
`fPowAllowMinDifficultyBlocks = true` and a non-zero selected retarget
interval, if `parent.height + 1` is not a multiple of that interval, the
candidate time exceeds `parent.time + 2 * nPowTargetSpacing`, and neither
`2 * nPowTargetSpacing` nor that sum leaves the range of `int64_t`, then
`GetNextWorkRequired` returns the compact encoding of `powLimit`. -/
theorem getNextWorkRequired_minDifficulty_late (s : StaticState) (st : ActualTimespans)
    (pindexLast : CBlockIndex) (pblock : CBlockHeader) (params : Params)
    (hmin : params.fPowAllowMinDifficultyBlocks = true)
    (hne : (selectVersion st params (pindexLast.nHeight + 1)).nInterval ≠ 0)
    (hoff : ¬ (selectVersion st params (pindexLast.nHeight + 1)).nInterval ∣
      pindexLast.nHeight + 1)
    (ht : pblock.GetBlockTime > pindexLast.GetBlockTime + params.nPowTargetSpacing * 2)
    (hrange : -(2 ^ 63 : Int) ≤ params.nPowTargetSpacing * 2 ∧
      pindexLast.GetBlockTime + params.nPowTargetSpacing * 2 < 2 ^ 63) :
    (GetNextWorkRequired s (some pindexLast) pblock params).1 =
      .ok (GetCompact params.powLimit) :=
  getNextWorkRequired_stalled s st pindexLast pblock params hmin hne hoff ht hrange

/-- The main-network shape with the rule switched on: the block after height 4,
341 s after its parent, gets the ceiling `0x1e0fffff`. -/
theorem getNextWorkRequired_minDifficulty_late_witness :
    ({ sampleParams 75 300 with fPowAllowMinDifficultyBlocks := true } :
      Params).fPowAllowMinDifficultyBlocks = true ∧
    (GetNextWorkRequired StaticState.fresh (some (uniformChain 0x1c0ffff0 1000 40 4)) ⟨1501⟩
      { sampleParams 75 300 with fPowAllowMinDifficultyBlocks := true }).1 = .ok 0x1e0fffff :=
  ⟨rfl, getNextWorkRequired_minDifficulty_late StaticState.fresh
    (ActualTimespans.init { sampleParams 75 300 with fPowAllowMinDifficultyBlocks := true })
    (uniformChain 0x1c0ffff0 1000 40 4) ⟨1501⟩
    { sampleParams 75 300 with fPowAllowMinDifficultyBlocks := true } rfl (by decide)
    (by decide) (by decide) (by decide)⟩

/-- The averaging window does not depend on the static bounds. -/
theorem selectVersion_nAveragingInterval (st st' : ActualTimespans) (params : Params) (n : Nat) :
    (selectVersion st params n).nAveragingInterval =
      (selectVersion st' params n).nAveragingInterval := by
  unfold selectVersion epochIndex
  split_ifs <;> rfl

/-- Walking `k` links back runs off the root exactly when there are fewer than `k`
ancestors. -/
theorem stepBack_eq_none_iff (k : Nat) (b : CBlockIndex) :
    stepBack k (some b) = none ↔ numAncestors b < k := by
  induction k generalizing b with
  | zero => simp [stepBack]
  | succ k ih =>
    obtain ⟨h, t, n, p⟩ := b
    cases p with
    | none =>
      cases k <;> simp [stepBack, CBlockIndex.pprev, numAncestors]
    | some p =>
      simp only [stepBack, CBlockIndex.pprev, numAncestors]
      rw [ih p]
      omega

/-- A well-formed chain has as many ancestors as its height. -/
theorem numAncestors_eq_nHeight : ∀ b : CBlockIndex, WellFormedChain b →
    numAncestors b = b.nHeight
  | .mk h _ _ none, hw => by
    simp only [WellFormedChain] at hw
    simp [numAncestors, CBlockIndex.nHeight, hw]
  | .mk h _ _ (some p), hw => by
    simp only [WellFormedChain] at hw
    have ih := numAncestors_eq_nHeight p hw.2
    simp [numAncestors, CBlockIndex.nHeight, hw.1, ih]

/-- The conversion of a window to the `int` counter never exceeds the window. -/
theorem toInt32_toNat_le (u : Nat) : (toInt32 u).toNat ≤ u := by
  have h1 : u % U32 ≤ u := Nat.mod_le _ _
  unfold toInt32
  simp only [U32] at h1 ⊢
  split_ifs <;> omega

/-- A window below `2^31` is its own `int` counter. -/
theorem toInt32_toNat_eq (u : Nat) (h : u < 2 ^ 31) : (toInt32 u).toNat = u := by
  unfold toInt32
  simp only [U32]
  split_ifs <;> omega

/-- The counter of the first retarget is at most the window minus one. -/
theorem toInt32_subU32_one_le (u : Nat) (h : 1 ≤ u) : (toInt32 (subU32 u 1)).toNat ≤ u - 1 := by
  have h1 : subU32 u 1 ≤ u - 1 ∨ subU32 u 1 = U32 - 1 := by
    unfold subU32
    simp only [U32]
    omega
  rcases h1 with h1 | h1
  · exact le_trans (toInt32_toNat_le _) h1
  · rw [h1]
    have : (toInt32 (U32 - 1)).toNat = 0 := by decide
    omega

/-- For a window in `[1, 2^31)` the counter of the first retarget is the window minus
one. -/
theorem toInt32_subU32_one_eq (u : Nat) (h : 1 ≤ u) (hu : u < 2 ^ 31) :
    (toInt32 (subU32 u 1)).toNat = u - 1 := by
  have h1 : subU32 u 1 = u - 1 := by
    unfold subU32
    simp only [U32]
    omega
  rw [h1]
  exact toInt32_toNat_eq _ (by omega)

/-- The result of `CalculateNextWorkRequired` reads only its own static bounds. -/
theorem calculateNextWorkRequired_result_congr (s s' : StaticState) (pindexLast : CBlockIndex)
    (nFirstBlockTime : Int) (params : Params)
    (h : s.calculateNextWorkRequired = s'.calculateNextWorkRequired) :
    (CalculateNextWorkRequired s pindexLast nFirstBlockTime params).1 =
      (CalculateNextWorkRequired s' pindexLast nFirstBlockTime params).1 := by
  simp only [CalculateNextWorkRequired, h]
  split_ifs
  · rfl
  · split <;> rfl

/-- The only failure of `CalculateNextWorkRequired` is the division by a zero
averaging target timespan, with retargeting enabled. -/
theorem calculateNextWorkRequired_error (s : StaticState) (st : ActualTimespans)
    (pindexLast : CBlockIndex) (nFirstBlockTime : Int) (params : Params) (f : Failure)
    (h : (CalculateNextWorkRequired s pindexLast nFirstBlockTime params).1 = .error f) :
    f = .divisionByZero ∧ params.fPowNoRetargeting = false ∧
      (selectVersion st params (pindexLast.nHeight + 1)).nAveragingTargetTimespan = 0 := by
  rw [selectVersion_nAveragingTargetTimespan st
    (s.calculateNextWorkRequired.getD (ActualTimespans.init params))]
  simp only [CalculateNextWorkRequired] at h
  cases hnr : params.fPowNoRetargeting
  · simp only [hnr, Bool.false_eq_true, if_false] at h
    split at h
    · rename_i hr
      have h0 := (retarget_eq_none_iff _ _ _).mp hr
      simp only [Except.error.injEq] at h
      exact ⟨h.symm, rfl, h0⟩
    · simp at h
  · simp [hnr] at h

/-- The form of `GetNextWorkRequired` on a retarget boundary: the walk of
`blockstogoback` links, the assertion, the recalculation. -/
theorem getNextWorkRequired_on_boundary (s : StaticState) (st : ActualTimespans)
    (pindexLast : CBlockIndex) (pblock : CBlockHeader) (params : Params)
    (hon : (selectVersion st params (pindexLast.nHeight + 1)).nInterval ∣
      pindexLast.nHeight + 1) :
    (GetNextWorkRequired s (some pindexLast) pblock params).1 =
      match stepBack
        (if pindexLast.nHeight + 1 ≠
            (selectVersion st params (pindexLast.nHeight + 1)).nAveragingInterval
          then toInt32 (selectVersion st params (pindexLast.nHeight + 1)).nAveragingInterval
          else toInt32
            (subU32 (selectVersion st params (pindexLast.nHeight + 1)).nAveragingInterval 1)).toNat
        (some pindexLast) with
      | none => .error .assertion
      | some pindexFirst =>
        (CalculateNextWorkRequired s pindexLast pindexFirst.GetBlockTime params).1 := by
  have hne : (selectVersion st params (pindexLast.nHeight + 1)).nInterval ≠ 0 := by
    intro h0
    rw [h0] at hon
    have := Nat.eq_zero_of_zero_dvd hon
    omega
  have hmod : (pindexLast.nHeight + 1) %
      (selectVersion st params (pindexLast.nHeight + 1)).nInterval = 0 :=
    Nat.mod_eq_zero_of_dvd hon
  rw [selectVersion_nInterval st
    (s.getNextWorkRequired.getD (ActualTimespans.init params))] at hne hmod
  rw [selectVersion_nAveragingInterval st
    (s.getNextWorkRequired.getD (ActualTimespans.init params))]
  simp only [GetNextWorkRequired]
  rw [if_neg hne, if_neg (by simpa using hmod)]
  split
  · rfl
  · exact calculateNextWorkRequired_result_congr _ _ _ _ _ rfl
/-- The uniform chains are well formed. -/
theorem uniformChain_wellFormed (T t0 sp n : Nat) : WellFormedChain (uniformChain T t0 sp n) := by
  induction n with
  | zero => simp [uniformChain, WellFormedChain]
  | succ n ih =>
    simp only [uniformChain, WellFormedChain]
    exact ⟨by rw [uniformChain_nHeight], ih⟩

/-- C14 (as stated, refuted): with an averaging window of `2^31` and the interval 90,
the parent of height 89 is on a retarget boundary and has 89 ancestors, fewer
than the `k = 2^31` of the claim, yet the assertion does not fail: the window
converts to a negative `int` counter, the walk takes no step and the target is
recalculated from the parent's own timestamp. -/
theorem getNextWorkRequired_boundary_walk_wide_window :
    (selectVersion (ActualTimespans.init
        { sampleParams 75 300 with nAveragingInterval_Version1 := 2 ^ 31 })
      { sampleParams 75 300 with nAveragingInterval_Version1 := 2 ^ 31 }
      ((uniformChain 0x1c0ffff0 1000 40 89).nHeight + 1)).nInterval ∣
      (uniformChain 0x1c0ffff0 1000 40 89).nHeight + 1 ∧
    (selectVersion (ActualTimespans.init
        { sampleParams 75 300 with nAveragingInterval_Version1 := 2 ^ 31 })
      { sampleParams 75 300 with nAveragingInterval_Version1 := 2 ^ 31 }
      ((uniformChain 0x1c0ffff0 1000 40 89).nHeight + 1)).nAveragingInterval = 2 ^ 31 ∧
    numAncestors (uniformChain 0x1c0ffff0 1000 40 89) < 2 ^ 31 ∧
    (GetNextWorkRequired StaticState.fresh (some (uniformChain 0x1c0ffff0 1000 40 89)) ⟨4600⟩
      { sampleParams 75 300 with nAveragingInterval_Version1 := 2 ^ 31 }).1 = .ok 0x1c03fffc ∧
    (GetNextWorkRequired StaticState.fresh (some (uniformChain 0x1c0ffff0 1000 40 89)) ⟨4600⟩
      { sampleParams 75 300 with nAveragingInterval_Version1 := 2 ^ 31 }).1 ≠
        .error .assertion := by
  refine ⟨by decide, by decide, by decide, by decide, by decide⟩

/-- C14 (amended): at a retarget boundary, for a selected averaging window below
`2^31`, with `k = window - 1` if `parent.height + 1 = window` and `k = window`
otherwise, `GetNextWorkRequired` fails by assertion if and only if the parent
has fewer than `k` ancestors; otherwise its result is that of
`CalculateNextWorkRequired` on the parent, the timestamp of the ancestor
exactly `k` links behind the parent, and the parameter record. -/
theorem getNextWorkRequired_boundary_walk (s : StaticState) (st : ActualTimespans)
    (pindexLast : CBlockIndex) (pblock : CBlockHeader) (params : Params)
    (hon : (selectVersion st params (pindexLast.nHeight + 1)).nInterval ∣
      pindexLast.nHeight + 1)
    (hw : (selectVersion st params (pindexLast.nHeight + 1)).nAveragingInterval < 2 ^ 31) :
    ((GetNextWorkRequired s (some pindexLast) pblock params).1 = .error .assertion ↔
      numAncestors pindexLast <
        (if pindexLast.nHeight + 1 =
            (selectVersion st params (pindexLast.nHeight + 1)).nAveragingInterval
          then (selectVersion st params (pindexLast.nHeight + 1)).nAveragingInterval - 1
          else (selectVersion st params (pindexLast.nHeight + 1)).nAveragingInterval)) ∧
    (∀ pindexFirst : CBlockIndex,
      stepBack
        (if pindexLast.nHeight + 1 =
            (selectVersion st params (pindexLast.nHeight + 1)).nAveragingInterval
          then (selectVersion st params (pindexLast.nHeight + 1)).nAveragingInterval - 1
          else (selectVersion st params (pindexLast.nHeight + 1)).nAveragingInterval)
        (some pindexLast) = some pindexFirst →
      (GetNextWorkRequired s (some pindexLast) pblock params).1 =
        (CalculateNextWorkRequired s pindexLast pindexFirst.GetBlockTime params).1) := by
  rw [getNextWorkRequired_on_boundary s st pindexLast pblock params hon]
  generalize (selectVersion st params (pindexLast.nHeight + 1)).nAveragingInterval = w at hw ⊢
  have hk : (if pindexLast.nHeight + 1 ≠ w then toInt32 w else toInt32 (subU32 w 1)).toNat =
      (if pindexLast.nHeight + 1 = w then w - 1 else w) := by
    by_cases h : pindexLast.nHeight + 1 = w
    · simp only [h, ne_eq, not_true_eq_false, if_false, if_true]
      exact toInt32_subU32_one_eq w (by omega) hw
    · simp only [h, ne_eq, not_false_eq_true, if_true, if_false]
      exact toInt32_toNat_eq w hw
  rw [hk]
  generalize (if pindexLast.nHeight + 1 = w then w - 1 else w) = k
  rw [← stepBack_eq_none_iff]
  cases hs : stepBack k (some pindexLast) with
  | none => simp
  | some pindexFirst =>
    refine ⟨⟨fun h => ?_, fun h => by simp at h⟩, fun f hf => ?_⟩
    · have := (calculateNextWorkRequired_error s st pindexLast _ params _ h).1
      cases this
    · cases hf
      rfl

/-- Height 90 of the epoch-1 shape, the first retarget: the walk of 89 links from
the tip of 90 headers reaches the root, and the assertion holds. -/
theorem getNextWorkRequired_boundary_walk_witness :
    (selectVersion (ActualTimespans.init (sampleParams 75 300)) (sampleParams 75 300)
      ((uniformChain 0x1c0ffff0 1000 40 89).nHeight + 1)).nInterval ∣
      (uniformChain 0x1c0ffff0 1000 40 89).nHeight + 1 ∧
    ¬ numAncestors (uniformChain 0x1c0ffff0 1000 40 89) < 89 ∧
    (GetNextWorkRequired StaticState.fresh (some (uniformChain 0x1c0ffff0 1000 40 89)) ⟨4600⟩
      (sampleParams 75 300)).1 ≠ .error .assertion :=
  ⟨by decide, by decide, fun h =>
    absurd (((getNextWorkRequired_boundary_walk StaticState.fresh
      (ActualTimespans.init (sampleParams 75 300)) (uniformChain 0x1c0ffff0 1000 40 89) ⟨4600⟩
      (sampleParams 75 300) (by decide) (by decide)).1).mp h) (by decide)⟩

/-- C15 (as stated, refuted): on a well-formed chain of 90 headers, with the interval
90 and an averaging window of 180, the block at height 90 is on a retarget
boundary and the walk of 180 links runs off the root: the assertion fails. -/
theorem getNextWorkRequired_wellFormed_short_chain :
    WellFormedChain (uniformChain 0x1c0ffff0 1000 40 89) ∧
    (selectVersion (ActualTimespans.init
        { sampleParams 75 300 with nAveragingInterval_Version1 := 180 })
      { sampleParams 75 300 with nAveragingInterval_Version1 := 180 }
      ((uniformChain 0x1c0ffff0 1000 40 89).nHeight + 1)).nInterval ∣
      (uniformChain 0x1c0ffff0 1000 40 89).nHeight + 1 ∧
    (GetNextWorkRequired StaticState.fresh (some (uniformChain 0x1c0ffff0 1000 40 89)) ⟨4600⟩
      { sampleParams 75 300 with nAveragingInterval_Version1 := 180 }).1 =
        .error .assertion := by
  refine ⟨uniformChain_wellFormed _ _ _ _, by decide, by decide⟩

/-- C15 (amended): on a well-formed chain, at a retarget boundary, the backward walk
completes and the assertion holds whenever the selected averaging window is
at most `parent.height + 1`, in particular whenever it is at most the selected
retarget interval; a window below `2^31` that exceeds `parent.height + 1` makes
the assertion fail. -/
theorem getNextWorkRequired_wellFormed_walk (s : StaticState) (st : ActualTimespans)
    (pindexLast : CBlockIndex) (pblock : CBlockHeader) (params : Params)
    (hwf : WellFormedChain pindexLast)
    (hon : (selectVersion st params (pindexLast.nHeight + 1)).nInterval ∣
      pindexLast.nHeight + 1) :
    ((selectVersion st params (pindexLast.nHeight + 1)).nAveragingInterval ≤
        pindexLast.nHeight + 1 →
      (GetNextWorkRequired s (some pindexLast) pblock params).1 ≠ .error .assertion) ∧
    ((selectVersion st params (pindexLast.nHeight + 1)).nAveragingInterval ≤
        (selectVersion st params (pindexLast.nHeight + 1)).nInterval →
      (GetNextWorkRequired s (some pindexLast) pblock params).1 ≠ .error .assertion) ∧
    (pindexLast.nHeight + 1 <
        (selectVersion st params (pindexLast.nHeight + 1)).nAveragingInterval ∧
      (selectVersion st params (pindexLast.nHeight + 1)).nAveragingInterval < 2 ^ 31 →
      (GetNextWorkRequired s (some pindexLast) pblock params).1 = .error .assertion) := by
  have hanc := numAncestors_eq_nHeight pindexLast hwf
  have hile : (selectVersion st params (pindexLast.nHeight + 1)).nInterval ≤
      pindexLast.nHeight + 1 := Nat.le_of_dvd (by omega) hon
  have key : (selectVersion st params (pindexLast.nHeight + 1)).nAveragingInterval ≤
        pindexLast.nHeight + 1 →
      (GetNextWorkRequired s (some pindexLast) pblock params).1 ≠ .error .assertion := by
    intro hle
    rw [getNextWorkRequired_on_boundary s st pindexLast pblock params hon]
    generalize (selectVersion st params (pindexLast.nHeight + 1)).nAveragingInterval = w at hle ⊢
    have hk : (if pindexLast.nHeight + 1 ≠ w then toInt32 w else toInt32 (subU32 w 1)).toNat ≤
        numAncestors pindexLast := by
      by_cases h : pindexLast.nHeight + 1 = w
      · simp only [h, ne_eq, not_true_eq_false, if_false]
        have := toInt32_subU32_one_le w (by omega)
        omega
      · simp only [h, ne_eq, not_false_eq_true, if_true]
        have := toInt32_toNat_le w
        omega
    generalize (if pindexLast.nHeight + 1 ≠ w then toInt32 w else toInt32 (subU32 w 1)).toNat = k
      at hk ⊢
    cases hs : stepBack k (some pindexLast) with
    | none =>
      have := (stepBack_eq_none_iff k pindexLast).mp hs
      omega
    | some pindexFirst =>
      intro h
      have := (calculateNextWorkRequired_error s st pindexLast _ params _ h).1
      cases this
  refine ⟨key, fun h => key (le_trans h hile), ?_⟩
  rintro ⟨hlt, hw⟩
  rw [getNextWorkRequired_on_boundary s st pindexLast pblock params hon]
  generalize (selectVersion st params (pindexLast.nHeight + 1)).nAveragingInterval = w at hlt hw ⊢
  have hne : pindexLast.nHeight + 1 ≠ w := by omega
  simp only [hne, ne_eq, not_false_eq_true, if_true]
  rw [toInt32_toNat_eq w hw, (stepBack_eq_none_iff w pindexLast).mpr (by omega)]

/-- Height 90 of the epoch-1 shape on its well-formed chain of 90 headers: the walk
reaches the root. -/
theorem getNextWorkRequired_wellFormed_walk_witness :
    WellFormedChain (uniformChain 0x1c0ffff0 1000 40 89) ∧
    (GetNextWorkRequired StaticState.fresh (some (uniformChain 0x1c0ffff0 1000 40 89)) ⟨4600⟩
      (sampleParams 75 300)).1 ≠ .error .assertion :=
  ⟨uniformChain_wellFormed _ _ _ _,
    (getNextWorkRequired_wellFormed_walk StaticState.fresh
      (ActualTimespans.init (sampleParams 75 300)) (uniformChain 0x1c0ffff0 1000 40 89) ⟨4600⟩
      (sampleParams 75 300) (uniformChain_wellFormed _ _ _ _) (by decide)).1 (by decide)⟩

/-! ## Failure paths -/

/-- Off a retarget boundary, with a non-zero interval, a target is returned. -/
theorem getNextWorkRequired_off_boundary_ok (s : StaticState) (st : ActualTimespans)
    (pindexLast : CBlockIndex) (pblock : CBlockHeader) (params : Params)
    (hne : (selectVersion st params (pindexLast.nHeight + 1)).nInterval ≠ 0)
    (hoff : ¬ (selectVersion st params (pindexLast.nHeight + 1)).nInterval ∣
      pindexLast.nHeight + 1) :
    ∃ nBits, (GetNextWorkRequired s (some pindexLast) pblock params).1 = .ok nBits := by
  have hmod : (pindexLast.nHeight + 1) %
      (selectVersion st params (pindexLast.nHeight + 1)).nInterval ≠ 0 :=
    fun h0 => hoff (Nat.dvd_of_mod_eq_zero h0)
  rw [selectVersion_nInterval st
    (s.getNextWorkRequired.getD (ActualTimespans.init params))] at hne hmod
  simp only [GetNextWorkRequired]
  rw [if_neg hne, if_pos hmod]
  split_ifs <;> exact ⟨_, rfl⟩

/-- With a zero selected interval the call fails on the modulo of line 68. -/
theorem getNextWorkRequired_zero_interval (s : StaticState) (st : ActualTimespans)
    (pindexLast : CBlockIndex) (pblock : CBlockHeader) (params : Params)
    (h0 : (selectVersion st params (pindexLast.nHeight + 1)).nInterval = 0) :
    (GetNextWorkRequired s (some pindexLast) pblock params).1 = .error .divisionByZero := by
  rw [selectVersion_nInterval st
    (s.getNextWorkRequired.getD (ActualTimespans.init params))] at h0
  simp only [GetNextWorkRequired]
  rw [if_pos h0]

/-- C18 (as stated, refuted): on the test-network record, whose retarget intervals
and averaging target timespans are zero, `GetNextWorkRequired` fails on the
modulo by the interval, which is not the traversal assertion, and
`CalculateNextWorkRequired` fails on the big-integer division. -/
theorem failure_paths_on_testnet_record :
    (GetNextWorkRequired StaticState.fresh (some (uniformChain 0x1c0ffff0 1000 40 4)) ⟨1200⟩
      testNetParams).1 = .error .divisionByZero ∧
    (GetNextWorkRequired StaticState.fresh (some (uniformChain 0x1c0ffff0 1000 40 4)) ⟨1200⟩
      testNetParams).1 ≠ .error .assertion ∧
    (CalculateNextWorkRequired StaticState.fresh (uniformChain 0x1c0ffff0 1000 40 4) 1000
      testNetParams).1 = .error .divisionByZero := by
  refine ⟨by decide, by decide, by decide⟩

/-- C18 (amended): for every parent, candidate, first-block time and parameter record
whose selected retarget interval and selected averaging target timespan are
non-zero, the only failure of `GetNextWorkRequired` is the traversal assertion
and `CalculateNextWorkRequired` returns a target; a zero interval makes
`GetNextWorkRequired` fail on the modulo, and a zero averaging target timespan
with retargeting enabled makes `CalculateNextWorkRequired` fail on the
division. -/
theorem failure_paths (s : StaticState) (st : ActualTimespans) (pindexLast : CBlockIndex)
    (pblock : CBlockHeader) (nFirstBlockTime : Int) (params : Params) :
    ((selectVersion st params (pindexLast.nHeight + 1)).nInterval ≠ 0 ∧
      (selectVersion st params (pindexLast.nHeight + 1)).nAveragingTargetTimespan ≠ 0 →
      (∀ f, (GetNextWorkRequired s (some pindexLast) pblock params).1 = .error f →
        f = .assertion) ∧
      ∃ nBits, (CalculateNextWorkRequired s pindexLast nFirstBlockTime params).1 =
        .ok nBits) ∧
    ((selectVersion st params (pindexLast.nHeight + 1)).nInterval = 0 →
      (GetNextWorkRequired s (some pindexLast) pblock params).1 = .error .divisionByZero) ∧
    ((selectVersion st params (pindexLast.nHeight + 1)).nAveragingTargetTimespan = 0 ∧
      params.fPowNoRetargeting = false →
      (CalculateNextWorkRequired s pindexLast nFirstBlockTime params).1 =
        .error .divisionByZero) := by
  refine ⟨?_, getNextWorkRequired_zero_interval s st pindexLast pblock params, ?_⟩
  · rintro ⟨hI, hT⟩
    constructor
    · intro f hf
      by_cases hon : (selectVersion st params (pindexLast.nHeight + 1)).nInterval ∣
          pindexLast.nHeight + 1
      · rw [getNextWorkRequired_on_boundary s st pindexLast pblock params hon] at hf
        split at hf
        · cases hf
          rfl
        · exact absurd (calculateNextWorkRequired_error s st pindexLast _ params f hf).2.2 hT
      · obtain ⟨r, hr⟩ := getNextWorkRequired_off_boundary_ok s st pindexLast pblock params hI hon
        rw [hr] at hf
        cases hf
    · cases hc : (CalculateNextWorkRequired s pindexLast nFirstBlockTime params).1 with
      | ok r => exact ⟨r, rfl⟩
      | error f =>
        exact absurd (calculateNextWorkRequired_error s st pindexLast _ params f hc).2.2 hT
  · rintro ⟨hT, hnr⟩
    rw [selectVersion_nAveragingTargetTimespan st
      (s.calculateNextWorkRequired.getD (ActualTimespans.init params))] at hT
    simp only [CalculateNextWorkRequired, hnr, hT, (retarget_eq_none_iff _ _ _).mpr]
    simp

/-- The epoch-1 shape at height 90 has interval 90 and timespan 3600: the
recalculation returns `0x1c03fffc`. -/
theorem failure_paths_witness :
    ((selectVersion (ActualTimespans.init (sampleParams 75 300)) (sampleParams 75 300)
        ((uniformChain 0x1c0ffff0 1000 40 89).nHeight + 1)).nInterval ≠ 0 ∧
      (selectVersion (ActualTimespans.init (sampleParams 75 300)) (sampleParams 75 300)
        ((uniformChain 0x1c0ffff0 1000 40 89).nHeight + 1)).nAveragingTargetTimespan ≠ 0) ∧
    ∃ nBits, (CalculateNextWorkRequired StaticState.fresh (uniformChain 0x1c0ffff0 1000 40 89)
      1000 (sampleParams 75 300)).1 = .ok nBits :=
  ⟨by decide, ((failure_paths StaticState.fresh (ActualTimespans.init (sampleParams 75 300))
    (uniformChain 0x1c0ffff0 1000 40 89) ⟨4600⟩ 1000 (sampleParams 75 300)).1 (by decide)).2⟩

/-! ## The minimum-difficulty walk -/

/-- The walk of lines 80-83 ends, after at most as many steps as the header has
ancestors, on the first header that has no parent, or a height that is a
multiple of the interval, or an `nBits` other than the compact ceiling. -/
theorem lastNonMinDifficulty_walk (nInterval nProofOfWorkLimit : Nat) :
    ∀ b : CBlockIndex, ∃ (k : Nat) (H : CBlockIndex),
      k ≤ numAncestors b ∧ stepBack k (some b) = some H ∧
      lastNonMinDifficulty nInterval nProofOfWorkLimit b = H.nBits ∧
      stopsWalk nInterval nProofOfWorkLimit H ∧
      ∀ i, i < k → ∀ B : CBlockIndex, stepBack i (some b) = some B →
        B.pprev ≠ none ∧ B.nHeight % nInterval ≠ 0 ∧ B.nBits = nProofOfWorkLimit
  | .mk h t n none =>
    ⟨0, .mk h t n none, Nat.le_refl _, rfl, rfl, Or.inl rfl, fun i hi => absurd hi (by omega)⟩
  | .mk h t n (some p) => by
    by_cases hc : h % nInterval ≠ 0 ∧ n = nProofOfWorkLimit
    · obtain ⟨k, H, hk, hs, hl, hstop, hbefore⟩ :=
        lastNonMinDifficulty_walk nInterval nProofOfWorkLimit p
      refine ⟨k + 1, H, by simp only [numAncestors]; omega, hs, ?_, hstop, ?_⟩
      · simp only [lastNonMinDifficulty, if_pos hc]
        exact hl
      · intro i hi B hB
        cases i with
        | zero =>
          simp only [stepBack, Option.some.injEq] at hB
          subst hB
          exact ⟨by simp [CBlockIndex.pprev], hc.1, hc.2⟩
        | succ i => exact hbefore i (by omega) B hB
    · refine ⟨0, .mk h t n (some p), Nat.zero_le _, rfl, ?_, ?_, fun i hi => absurd hi (by omega)⟩
      · simp only [lastNonMinDifficulty, if_neg hc]
        rfl
      · simp only [stopsWalk, CBlockIndex.nHeight, CBlockIndex.nBits]
        by_cases h0 : h % nInterval = 0
        · exact Or.inr (Or.inl h0)
        · exact Or.inr (Or.inr (fun hn => hc ⟨h0, hn⟩))

/-- The form of `GetNextWorkRequired` in the minimum-difficulty branch, the sum of
line 75 being in the range of `int64_t`. -/
theorem getNextWorkRequired_minDifficulty_branch (s : StaticState) (st : ActualTimespans)
    (pindexLast : CBlockIndex) (pblock : CBlockHeader) (params : Params)
    (hne : (selectVersion st params (pindexLast.nHeight + 1)).nInterval ≠ 0)
    (hoff : ¬ (selectVersion st params (pindexLast.nHeight + 1)).nInterval ∣
      pindexLast.nHeight + 1)
    (hmin : params.fPowAllowMinDifficultyBlocks = true)
    (ht : ¬ pblock.GetBlockTime > pindexLast.GetBlockTime + params.nPowTargetSpacing * 2)
    (hrange : -(2 ^ 63 : Int) ≤ params.nPowTargetSpacing * 2 ∧
      pindexLast.GetBlockTime + params.nPowTargetSpacing * 2 < 2 ^ 63) :
    (GetNextWorkRequired s (some pindexLast) pblock params).1 =
      .ok (lastNonMinDifficulty (selectVersion st params (pindexLast.nHeight + 1)).nInterval
        (GetCompact params.powLimit) pindexLast) := by
  rw [← lateBound_exact pindexLast params hrange] at ht
  have hmod : (pindexLast.nHeight + 1) %
      (selectVersion st params (pindexLast.nHeight + 1)).nInterval ≠ 0 :=
    fun h0 => hoff (Nat.dvd_of_mod_eq_zero h0)
  rw [selectVersion_nInterval st
    (s.getNextWorkRequired.getD (ActualTimespans.init params))] at hne hmod ⊢
  simp only [GetNextWorkRequired]
  rw [if_neg hne, if_pos hmod]
  simp [hmin, ht]

/-- C20: in the minimum-difficulty branch (non-zero interval, height off a retarget
boundary, flag on, candidate at most two spacings after the parent, the sum
`parent.time + 2 * spacing` of line 75 in the range of `int64_t`),
`GetNextWorkRequired` returns the `nBits` of the header `H` reached after `k`
parent links from the parent, where `H` has no parent, or a height that is a
multiple of the selected interval, or an `nBits` other than the compact
ceiling, and every header visited before `H` has a parent, a height that is
not a multiple of the interval and `nBits` equal to the compact ceiling. -/
theorem getNextWorkRequired_minDifficulty_walk (s : StaticState) (st : ActualTimespans)
    (pindexLast : CBlockIndex) (pblock : CBlockHeader) (params : Params)
    (hne : (selectVersion st params (pindexLast.nHeight + 1)).nInterval ≠ 0)
    (hoff : ¬ (selectVersion st params (pindexLast.nHeight + 1)).nInterval ∣
      pindexLast.nHeight + 1)
    (hmin : params.fPowAllowMinDifficultyBlocks = true)
    (ht : pblock.GetBlockTime ≤ pindexLast.GetBlockTime + params.nPowTargetSpacing * 2)
    (hrange : -(2 ^ 63 : Int) ≤ params.nPowTargetSpacing * 2 ∧
      pindexLast.GetBlockTime + params.nPowTargetSpacing * 2 < 2 ^ 63) :
    ∃ (k : Nat) (H : CBlockIndex),
      stepBack k (some pindexLast) = some H ∧
      (GetNextWorkRequired s (some pindexLast) pblock params).1 = .ok H.nBits ∧
      (H.pprev = none ∨
        (selectVersion st params (pindexLast.nHeight + 1)).nInterval ∣ H.nHeight ∨
        H.nBits ≠ GetCompact params.powLimit) ∧
      ∀ i, i < k → ∀ B : CBlockIndex, stepBack i (some pindexLast) = some B →
        B.pprev ≠ none ∧
        ¬ (selectVersion st params (pindexLast.nHeight + 1)).nInterval ∣ B.nHeight ∧
        B.nBits = GetCompact params.powLimit := by
  obtain ⟨k, H, -, hs, hl, hstop, hbefore⟩ :=
    lastNonMinDifficulty_walk (selectVersion st params (pindexLast.nHeight + 1)).nInterval
      (GetCompact params.powLimit) pindexLast
  refine ⟨k, H, hs, ?_, ?_, ?_⟩
  · rw [getNextWorkRequired_minDifficulty_branch s st pindexLast pblock params hne hoff hmin
      (by omega) hrange, hl]
  · rcases hstop with h | h | h
    · exact Or.inl h
    · exact Or.inr (Or.inl (Nat.dvd_of_mod_eq_zero h))
    · exact Or.inr (Or.inr h)
  · intro i hi B hB
    obtain ⟨h1, h2, h3⟩ := hbefore i hi B hB
    exact ⟨h1, fun hd => h2 (Nat.mod_eq_zero_of_dvd hd), h3⟩

/-- The chain used in the witness: two minimum-difficulty headers of heights 92 and
91 on top of a header of height 90, a multiple of the interval. -/
theorem getNextWorkRequired_minDifficulty_walk_witness :
    ({ sampleParams 75 300 with fPowAllowMinDifficultyBlocks := true } :
      Params).fPowAllowMinDifficultyBlocks = true ∧
    (GetNextWorkRequired StaticState.fresh
      (some (.mk 92 4680 0x1e0fffff (some (.mk 91 4640 0x1e0fffff
        (some (.mk 90 4600 0x1c0ffff0 none)))))) ⟨4720⟩
      { sampleParams 75 300 with fPowAllowMinDifficultyBlocks := true }).1 = .ok 0x1c0ffff0 ∧
    ∃ (k : Nat) (H : CBlockIndex),
      stepBack k (some (.mk 92 4680 0x1e0fffff (some (.mk 91 4640 0x1e0fffff
        (some (.mk 90 4600 0x1c0ffff0 none)))))) = some H ∧
      (GetNextWorkRequired StaticState.fresh
        (some (.mk 92 4680 0x1e0fffff (some (.mk 91 4640 0x1e0fffff
          (some (.mk 90 4600 0x1c0ffff0 none)))))) ⟨4720⟩
        { sampleParams 75 300 with fPowAllowMinDifficultyBlocks := true }).1 = .ok H.nBits :=
  ⟨rfl, by decide, by
    obtain ⟨k, H, h1, h2, -, -⟩ := getNextWorkRequired_minDifficulty_walk StaticState.fresh
      (ActualTimespans.init { sampleParams 75 300 with fPowAllowMinDifficultyBlocks := true })
      (.mk 92 4680 0x1e0fffff (some (.mk 91 4640 0x1e0fffff
        (some (.mk 90 4600 0x1c0ffff0 none))))) ⟨4720⟩
      { sampleParams 75 300 with fPowAllowMinDifficultyBlocks := true }
      (by decide) (by decide) rfl (by decide) (by decide)
    exact ⟨k, H, h1, h2⟩⟩

/-! ## The shift guard -/

/-- A decoded magnitude is a 256-bit value. -/
theorem SetCompact_magnitude_lt (nCompact : Nat) : (SetCompact nCompact).magnitude < U256 := by
  simp only [SetCompact]
  split_ifs with h3
  · have h1 : nCompact % 2 ^ 23 / 2 ^ (8 * (3 - nCompact / 2 ^ 24)) ≤ nCompact % 2 ^ 23 :=
      Nat.div_le_self _ _
    simp only [U256]
    omega
  · exact Nat.mod_lt _ (by simp [U256])

/-- A non-negative 32-bit value converts to itself. -/
theorem toU32_natCast (n : Nat) (h : n < U32) : toU32 (n : Int) = n := by
  unfold toU32
  simp only [U32] at h ⊢
  omega

/-- For a magnitude of at most 236 bits and a timespan below `2^20` the guarded
product stays below `2^255` and the retarget arithmetic is the exact integer
computation. -/
theorem retarget_exact (m ts T : Nat) (hm : m < U256) (hb : bits m ≤ 236) (hts : ts < 2 ^ 20)
    (hT : T ≠ 0) :
    (if bits m > 235 then shiftRight1 m else m) * ts < U256 ∧
    retarget m (ts : Int) T =
      some (if bits m > 235 then m / 2 * ts / T * 2 else m * ts / T) ∧
    (if bits m > 235 then m / 2 * ts / T * 2 else m * ts / T) < U256 := by
  have hts32 : ts < U32 := lt_trans hts (by simp [U32])
  have hu := toU32_natCast ts hts32
  have hm236 := lt_of_bits_le m 236 hm hb
  have key : ∀ g : Nat, g < 2 ^ 235 → g * ts < 2 ^ 255 := by
    intro g hg
    calc g * ts < 2 ^ 235 * 2 ^ 20 := Nat.mul_lt_mul'' hg hts
      _ = 2 ^ 255 := by norm_num
  unfold retarget divBig shiftLeft1 shiftRight1 mulWord
  rw [hu]
  by_cases hsh : bits m > 235
  · have hg : m / 2 < 2 ^ 235 := by omega
    have hp := key _ hg
    have hd : m / 2 * ts / T ≤ m / 2 * ts := Nat.div_le_self _ _
    have hp256 : m / 2 * ts < U256 := lt_trans hp (by simp [U256])
    have hd256 : m / 2 * ts / T * 2 < U256 := by
      simp only [U256]
      omega
    simp [hsh, hT, Nat.mod_eq_of_lt hp256, Nat.mod_eq_of_lt hd256, hp256, hd256]
  · have hg : m < 2 ^ 235 := lt_of_bits_le m 235 hm (by omega)
    have hp := key _ hg
    have hd : m * ts / T ≤ m * ts := Nat.div_le_self _ _
    have hp256 : m * ts < U256 := lt_trans hp (by simp [U256])
    have hd256 : m * ts / T < U256 := lt_of_le_of_lt hd hp256
    simp [hsh, hT, Nat.mod_eq_of_lt hp256, hp256, hd256]

/-- The retarget arithmetic on a magnitude of `b` bits is the exact integer
computation when the timespan is at most `2^(256-b)` without the shift
(`b ≤ 235`), and at most `2^(257-b)` and `2^(256-b)` times the divisor with
it (`b > 235`): the shift gains one bit. -/
theorem retarget_exact_of_bits (m ts T : Nat) (hm : m < U256) (hts : ts < U32) (hT : T ≠ 0)
    (hlow : bits m ≤ 235 → ts ≤ 2 ^ (256 - bits m))
    (hhigh : bits m > 235 → ts ≤ 2 ^ (257 - bits m) ∧ ts ≤ 2 ^ (256 - bits m) * T) :
    (if bits m > 235 then shiftRight1 m else m) * ts < U256 ∧
    retarget m (ts : Int) T =
      some (if bits m > 235 then m / 2 * ts / T * 2 else m * ts / T) ∧
    (if bits m > 235 then m / 2 * ts / T * 2 else m * ts / T) < U256 := by
  have hu := toU32_natCast ts hts
  have hmb : m < 2 ^ bits m := (bits_spec m hm).1
  have hb256 : bits m ≤ 256 := (bits_spec m hm).2.2
  unfold retarget divBig shiftLeft1 shiftRight1 mulWord
  rw [hu]
  by_cases hsh : bits m > 235
  · obtain ⟨h1, h2⟩ := hhigh hsh
    obtain ⟨c, hc⟩ : ∃ c, bits m = c + 236 := ⟨bits m - 236, by omega⟩
    have e1 : 257 - bits m = 21 - c := by omega
    have e2 : 256 - bits m = 20 - c := by omega
    have hc20 : c ≤ 20 := by omega
    rw [e1] at h1
    rw [e2] at h2
    have hpow : (2 : Nat) ^ bits m = 2 * 2 ^ (c + 235) := by
      rw [hc, show c + 236 = (c + 235) + 1 by omega, Nat.pow_succ]
      ring
    have hg : m / 2 + 1 ≤ 2 ^ (c + 235) := by omega
    have p1 : (2 : Nat) ^ (c + 235) * 2 ^ (21 - c) = 2 ^ 256 := by
      rw [← Nat.pow_add]
      congr 1
      omega
    have p2 : (2 : Nat) ^ (c + 235) * 2 ^ (20 - c) = 2 ^ 255 := by
      rw [← Nat.pow_add]
      congr 1
      omega
    have hpos1 : 0 < (2 : Nat) ^ (21 - c) := Nat.pow_pos (by norm_num)
    have hpos2 : 0 < (2 : Nat) ^ (20 - c) := Nat.pow_pos (by norm_num)
    have hp256 : m / 2 * ts < U256 := by
      have a1 : m / 2 * ts ≤ m / 2 * 2 ^ (21 - c) := Nat.mul_le_mul_left _ h1
      have a2 : (m / 2 + 1) * 2 ^ (21 - c) ≤ 2 ^ (c + 235) * 2 ^ (21 - c) :=
        Nat.mul_le_mul_right _ hg
      have a3 : (m / 2 + 1) * 2 ^ (21 - c) = m / 2 * 2 ^ (21 - c) + 2 ^ (21 - c) := by ring
      simp only [U256]
      omega
    have hq : m / 2 * ts / T < 2 ^ 255 := by
      have a1 : m / 2 * ts ≤ m / 2 * (2 ^ (20 - c) * T) := Nat.mul_le_mul_left _ h2
      have a2 : m / 2 * ts / T ≤ m / 2 * 2 ^ (20 - c) := by
        apply Nat.div_le_of_le_mul
        calc m / 2 * ts ≤ m / 2 * (2 ^ (20 - c) * T) := a1
          _ = T * (m / 2 * 2 ^ (20 - c)) := by ring
      have a3 : (m / 2 + 1) * 2 ^ (20 - c) ≤ 2 ^ (c + 235) * 2 ^ (20 - c) :=
        Nat.mul_le_mul_right _ hg
      have a4 : (m / 2 + 1) * 2 ^ (20 - c) = m / 2 * 2 ^ (20 - c) + 2 ^ (20 - c) := by ring
      omega
    have hd256 : m / 2 * ts / T * 2 < U256 := by
      simp only [U256]
      omega
    simp [hsh, hT, Nat.mod_eq_of_lt hp256, Nat.mod_eq_of_lt hd256, hp256, hd256]
  · have h1 := hlow (by omega)
    have hp256 : m * ts < U256 := by
      rcases Nat.eq_zero_or_pos ts with h0 | h0
      · rw [h0]
        simp [U256]
      · have a1 : m * ts < 2 ^ bits m * ts := Nat.mul_lt_mul_of_pos_right hmb h0
        have a2 : 2 ^ bits m * ts ≤ 2 ^ bits m * 2 ^ (256 - bits m) := Nat.mul_le_mul_left _ h1
        have a3 : (2 : Nat) ^ bits m * 2 ^ (256 - bits m) = 2 ^ 256 := by
          rw [← Nat.pow_add]
          congr 1
          omega
        simp only [U256]
        omega
    have hd : m * ts / T ≤ m * ts := Nat.div_le_self _ _
    have hd256 : m * ts / T < U256 := lt_of_le_of_lt hd hp256
    simp [hsh, hT, Nat.mod_eq_of_lt hp256, hp256, hd256]

/-- C19 (as stated, refuted): the target `0x207fffff` has 255 bits; with a clamped
timespan of 3600 s the guarded product of half its magnitude and the timespan
does not fit in 256 bits, the retarget arithmetic wraps, and the recalculation
under the ceiling `2^255 - 1` returns `0x1f2467ac` where the exact integer
computation gives the old target `0x207fffff` back. -/
theorem shift_guard_wraps :
    bits (SetCompact 0x207fffff).magnitude = 255 ∧
    (selectVersion (ActualTimespans.init { sampleParams 0 300 with powLimit := 2 ^ 255 - 1 })
      { sampleParams 0 300 with powLimit := 2 ^ 255 - 1 } 90).nMinActualTimespan = 3600 ∧
    U256 ≤ shiftRight1 (SetCompact 0x207fffff).magnitude * 3600 ∧
    retarget (SetCompact 0x207fffff).magnitude 3600 3600 ≠
      some ((SetCompact 0x207fffff).magnitude / 2 * 3600 / 3600 * 2) ∧
    (CalculateNextWorkRequired StaticState.fresh (uniformChain 0x207fffff 1000 40 89) 1000
      { sampleParams 0 300 with powLimit := 2 ^ 255 - 1 }).1 = .ok 0x1f2467ac ∧
    GetCompact (min (2 ^ 255 - 1) ((SetCompact 0x207fffff).magnitude / 2 * 3600 / 3600 * 2)) =
      0x207fffff := by
  refine ⟨by decide, by decide, by decide, by decide, by decide, by decide⟩

/-- The bounds on the timespan are the largest that hold for every magnitude of a
given bit length: at the main-network ceiling `2^236 - 1` a timespan of
`2^21 + 1` makes the guarded product leave 256 bits, and with the timespan
`2^21` over the divisor 1 the product fits but the final left shift loses
the high bit. -/
theorem shift_guard_bounds_tight :
    bits (2 ^ 236 - 1) = 236 ∧
    U256 ≤ shiftRight1 (2 ^ 236 - 1) * (2 ^ 21 + 1) ∧
    shiftRight1 (2 ^ 236 - 1) * 2 ^ 21 < U256 ∧
    U256 ≤ shiftRight1 (2 ^ 236 - 1) * 2 ^ 21 / 1 * 2 ∧
    retarget (2 ^ 236 - 1) (2 ^ 21 : Nat) 1 ≠ some ((2 ^ 236 - 1) / 2 * 2 ^ 21 / 1 * 2) := by
  refine ⟨by decide, by decide, by decide, by decide, by decide⟩

/-- C19 (amended): for every parent whose decoded target `m` has `b` bits and every
parameter record with retargeting enabled whose selected averaging target
timespan `T` is non-zero and whose clamped timespan `ts` (the selected minimum
actual timespan, below `2^32`) is at most `2^(256-b)` when `b ≤ 235`, and at
most `2^(257-b)` and at most `2^(256-b) * T` when `b > 235`, the product of
the guarded magnitude and `ts` fits in 256 bits, the retarget arithmetic is
the exact integer computation (`m / 2 * ts / T * 2` when `m` has more than 235
bits, `m * ts / T` otherwise), the final left shift loses no bit, and the
returned target is the encoding of that value clamped to `powLimit`. -/
theorem calculateNextWorkRequired_no_wrap (s : StaticState) (pindexLast : CBlockIndex)
    (nFirstBlockTime : Int) (params : Params) (m ts T : Nat)
    (hm : m = (SetCompact pindexLast.nBits).magnitude)
    (hts : ts = (selectVersion (s.calculateNextWorkRequired.getD (ActualTimespans.init params))
      params (pindexLast.nHeight + 1)).nMinActualTimespan)
    (hT : T = (selectVersion (s.calculateNextWorkRequired.getD (ActualTimespans.init params))
      params (pindexLast.nHeight + 1)).nAveragingTargetTimespan)
    (hnr : params.fPowNoRetargeting = false)
    (hT0 : T ≠ 0) (hts32 : ts < U32)
    (hlow : bits m ≤ 235 → ts ≤ 2 ^ (256 - bits m))
    (hhigh : bits m > 235 → ts ≤ 2 ^ (257 - bits m) ∧ ts ≤ 2 ^ (256 - bits m) * T) :
    (if bits m > 235 then shiftRight1 m else m) * ts < U256 ∧
    retarget m (limitAdjustmentStep (pindexLast.GetBlockTime - nFirstBlockTime) ts) T =
      some (if bits m > 235 then m / 2 * ts / T * 2 else m * ts / T) ∧
    (if bits m > 235 then m / 2 * ts / T * 2 else m * ts / T) < U256 ∧
    (CalculateNextWorkRequired s pindexLast nFirstBlockTime params).1 =
      .ok (GetCompact
        (if (if bits m > 235 then m / 2 * ts / T * 2 else m * ts / T) > params.powLimit
          then params.powLimit
          else (if bits m > 235 then m / 2 * ts / T * 2 else m * ts / T))) := by
  have hm256 : m < U256 := hm ▸ SetCompact_magnitude_lt _
  obtain ⟨h1, h2, h3⟩ := retarget_exact_of_bits m ts T hm256 hts32 hT0 hlow hhigh
  rw [limitAdjustmentStep_eq]
  refine ⟨h1, h2, h3, ?_⟩
  simp only [CalculateNextWorkRequired, hnr, limitAdjustmentStep_eq, ← hm, ← hts, ← hT, h2]
  simp

/-- The target `0x1f1fffff` of 245 bits with the clamped timespan 3600 under the
ceiling `2^255 - 1`: the product of the whole magnitude and the timespan
leaves 256 bits, the guarded product does not, and the recalculation returns
the old target. -/
theorem calculateNextWorkRequired_no_wrap_witness :
    bits (SetCompact 0x1f1fffff).magnitude = 245 ∧
    (3600 : Nat) ≤ 2 ^ (257 - 245) ∧ (3600 : Nat) ≤ 2 ^ (256 - 245) * 3600 ∧
    U256 ≤ (SetCompact 0x1f1fffff).magnitude * 3600 ∧
    shiftRight1 (SetCompact 0x1f1fffff).magnitude * 3600 < U256 ∧
    (CalculateNextWorkRequired StaticState.fresh (uniformChain 0x1f1fffff 1000 40 89) 1000
      { sampleParams 0 300 with powLimit := 2 ^ 255 - 1 }).1 = .ok 0x1f1fffff :=
  ⟨by decide, by decide, by decide, by decide, by decide,
    (calculateNextWorkRequired_no_wrap StaticState.fresh (uniformChain 0x1f1fffff 1000 40 89) 1000
      { sampleParams 0 300 with powLimit := 2 ^ 255 - 1 } (SetCompact 0x1f1fffff).magnitude
      3600 3600 (by decide) (by decide) (by decide) rfl (by decide) (by decide) (by decide)
      (by decide)).2.2.2.trans (by decide)⟩

/-! ## The compact codec: closed form and round trips -/

/-- The bit length is determined by the power-of-two bracket of the value. -/
theorem bits_unique (x b : Nat) (hx : x < U256) (hlo : 2 ^ (b - 1) ≤ x) (hhi : x < 2 ^ b)
    (hb : 1 ≤ b) : bits x = b := by
  obtain ⟨h1, h2, -⟩ := bits_spec x hx
  have hx0 : x ≠ 0 := by
    have := Nat.two_pow_pos (b - 1)
    omega
  have h3 := h2 hx0
  have h4 : b - 1 < bits x := (Nat.pow_lt_pow_iff_right (by norm_num : 1 < 2)).mp
    (lt_of_le_of_lt hlo h1)
  have h5 : bits x - 1 < b := (Nat.pow_lt_pow_iff_right (by norm_num : 1 < 2)).mp
    (lt_of_le_of_lt h3 hhi)
  omega

/-- A non-zero value has a non-zero bit length. -/
theorem bits_pos (v : Nat) (hv : v < U256) (h0 : v ≠ 0) : 1 ≤ bits v := by
  obtain ⟨h1, -, -⟩ := bits_spec v hv
  by_contra h
  have hb : bits v = 0 := by omega
  rw [hb] at h1
  omega

/-- The encoding of zero is zero. -/
theorem GetCompact_zero : GetCompact 0 = 0 := by
  simp [GetCompact, bits_zero, U32]

/-- Closed form of the encoding of a non-zero magnitude: the exponent is
`bits v / 8 + 1` and the mantissa is the magnitude aligned to it. -/
theorem GetCompact_closed (v : Nat) (hv : v < U256) (h0 : v ≠ 0) :
    GetCompact v =
      (if bits v < 24 then v * 2 ^ (8 * (2 - bits v / 8)) else v / 2 ^ (8 * (bits v / 8 - 2))) +
        (bits v / 8 + 1) * 2 ^ 24 := by
  obtain ⟨hlt, hge', hle⟩ := bits_spec v hv
  have hge := hge' h0
  have hpos := bits_pos v hv h0
  clear hge'
  unfold GetCompact
  generalize bits v = b at hlt hge hle hpos ⊢
  by_cases h24 : b ≤ 24
  · have hn3 : (b + 7) / 8 ≤ 3 := by omega
    simp only [if_pos hn3]
    interval_cases b <;> simp only [U32] <;> norm_num at hlt hge ⊢ <;> split_ifs <;> omega
  · have h24' : ¬ b < 24 := by omega
    simp only [if_neg h24']
    have hn3 : ¬ (b + 7) / 8 ≤ 3 := by omega
    simp only [if_neg hn3]
    by_cases h8 : b % 8 = 0
    · -- the top byte has its high bit set: the mantissa moves down one byte
      have hn : (b + 7) / 8 = b / 8 := by omega
      rw [hn]
      have hlo : 2 ^ 23 * 2 ^ (8 * (b / 8 - 3)) ≤ v := by
        rw [← Nat.pow_add]
        have : 23 + 8 * (b / 8 - 3) = b - 1 := by omega
        rw [this]
        exact hge
      have hhi : v < 2 ^ (8 * (b / 8 - 3)) * 2 ^ 24 := by
        rw [← Nat.pow_add]
        have : 8 * (b / 8 - 3) + 24 = b := by omega
        rw [this]
        exact hlt
      have hq1 : 2 ^ 23 ≤ v / 2 ^ (8 * (b / 8 - 3)) :=
        (Nat.le_div_iff_mul_le (Nat.two_pow_pos _)).mpr hlo
      have hq2 : v / 2 ^ (8 * (b / 8 - 3)) < 2 ^ 24 := Nat.div_lt_of_lt_mul hhi
      have hdd : v / 2 ^ (8 * (b / 8 - 3)) / 2 ^ 8 = v / 2 ^ (8 * (b / 8 - 2)) := by
        rw [Nat.div_div_eq_div_mul, ← Nat.pow_add]
        congr 2
        omega
      rw [← hdd]
      generalize v / 2 ^ (8 * (b / 8 - 3)) = q at hq1 hq2 ⊢
      simp only [U32]
      split_ifs <;> omega
    · have hn : (b + 7) / 8 = b / 8 + 1 := by omega
      rw [hn]
      have hsub : b / 8 + 1 - 3 = b / 8 - 2 := by omega
      rw [hsub]
      have hhi : v < 2 ^ (8 * (b / 8 - 2)) * 2 ^ 23 := by
        rw [← Nat.pow_add]
        exact lt_of_lt_of_le hlt (Nat.pow_le_pow_right (by norm_num) (by omega))
      have hq2 : v / 2 ^ (8 * (b / 8 - 2)) < 2 ^ 23 := Nat.div_lt_of_lt_mul hhi
      generalize v / 2 ^ (8 * (b / 8 - 2)) = q at hq2 ⊢
      simp only [U32]
      split_ifs <;> omega

/-- A value below `2^k` has at most `k` bits. -/
theorem bits_le_of_lt (v k : Nat) (hv : v < U256) (h : v < 2 ^ k) : bits v ≤ k := by
  by_cases h0 : v = 0
  · rw [h0, bits_zero]
    exact Nat.zero_le _
  · obtain ⟨-, h2, -⟩ := bits_spec v hv
    have h5 : bits v - 1 < k := (Nat.pow_lt_pow_iff_right (by norm_num : 1 < 2)).mp
      (lt_of_le_of_lt (h2 h0) h)
    have := bits_pos v hv h0
    omega

/-- Decoding an encoding clears the bytes of the magnitude below its three leading
ones (counted from the exponent `bits v / 8 + 1`), and sets no flag. -/
theorem SetCompact_GetCompact_trunc (v : Nat) (hv : v < U256) (h0 : v ≠ 0) :
    SetCompact (GetCompact v) =
      { magnitude := v / 2 ^ (8 * (bits v / 8 - 2)) * 2 ^ (8 * (bits v / 8 - 2))
        fNegative := false
        fOverflow := false } := by
  obtain ⟨hlt, -, hle⟩ := bits_spec v hv
  have hpos := bits_pos v hv h0
  rw [GetCompact_closed v hv h0]
  by_cases h24 : bits v < 24
  · have hE : bits v / 8 - 2 = 0 := by omega
    have hc : v * 2 ^ (8 * (2 - bits v / 8)) < 2 ^ 23 := by
      generalize bits v = b at hlt hpos h24 ⊢
      interval_cases b <;> norm_num at hlt ⊢ <;> omega
    simp only [if_pos h24, hE]
    rw [SetCompact_parts _ _ hc]
    have he : bits v / 8 + 1 ≤ 3 := by omega
    have h3e : 3 - (bits v / 8 + 1) = 2 - bits v / 8 := by omega
    simp only [if_pos he, h3e, Nat.mul_div_cancel _ (Nat.two_pow_pos _)]
    have h33 : ¬ bits v / 8 + 1 > 32 := by omega
    simp
    omega
  · have hhi : v < 2 ^ (8 * (bits v / 8 - 2)) * 2 ^ 23 := by
      rw [← Nat.pow_add]
      exact lt_of_lt_of_le hlt (Nat.pow_le_pow_right (by norm_num) (by omega))
    have hc : v / 2 ^ (8 * (bits v / 8 - 2)) < 2 ^ 23 := Nat.div_lt_of_lt_mul hhi
    have hmul : v / 2 ^ (8 * (bits v / 8 - 2)) * 2 ^ (8 * (bits v / 8 - 2)) ≤ v :=
      Nat.div_mul_le_self _ _
    have h16 : bits v / 8 + 1 > 32 → v / 2 ^ (8 * (bits v / 8 - 2)) < 2 ^ 16 := by
      intro h32
      have hE : bits v / 8 - 2 = 30 := by omega
      rw [hE]
      simp only [U256] at hv
      omega
    simp only [if_neg h24]
    rw [SetCompact_parts _ _ hc]
    have he : ¬ bits v / 8 + 1 ≤ 3 := by omega
    have h3e : bits v / 8 + 1 - 3 = bits v / 8 - 2 := by omega
    simp only [if_neg he, h3e, Nat.mod_eq_of_lt (lt_of_le_of_lt hmul hv)]
    congr 1
    simp only [decide_eq_false_iff_not]
    generalize v / 2 ^ (8 * (bits v / 8 - 2)) = q at hc h16 ⊢
    by_cases h32 : bits v / 8 + 1 > 32
    · have := h16 h32
      omega
    · omega

/-- A magnitude that is a multiple of `256^j` and has at most 23 bits above them is
decoded back exactly. -/
theorem SetCompact_GetCompact_aligned (v j : Nat) (hv : v < U256) (hdvd : 2 ^ (8 * j) ∣ v)
    (hlt : v < 2 ^ (23 + 8 * j)) :
    SetCompact (GetCompact v) = { magnitude := v, fNegative := false, fOverflow := false } := by
  by_cases h0 : v = 0
  · subst h0
    rw [GetCompact_zero]
    rfl
  · rw [SetCompact_GetCompact_trunc v hv h0]
    have hb := bits_le_of_lt v _ hv hlt
    have hd : 2 ^ (8 * (bits v / 8 - 2)) ∣ v :=
      Nat.dvd_trans (Nat.pow_dvd_pow 2 (by omega)) hdvd
    rw [Nat.div_mul_cancel hd]

/-- Every decoded magnitude is a multiple of some `256^j` with at most 23 bits above
them. -/
theorem SetCompact_magnitude_aligned (nCompact : Nat) :
    ∃ j, 2 ^ (8 * j) ∣ (SetCompact nCompact).magnitude ∧
      (SetCompact nCompact).magnitude < 2 ^ (23 + 8 * j) := by
  simp only [SetCompact]
  by_cases h3 : nCompact / 2 ^ 24 ≤ 3
  · refine ⟨0, by simp, ?_⟩
    simp only [if_pos h3]
    have h1 : nCompact % 2 ^ 23 / 2 ^ (8 * (3 - nCompact / 2 ^ 24)) ≤ nCompact % 2 ^ 23 :=
      Nat.div_le_self _ _
    omega
  · simp only [if_neg h3]
    generalize nCompact / 2 ^ 24 - 3 = k
    have hw : nCompact % 2 ^ 23 < 2 ^ 23 := Nat.mod_lt _ (by norm_num)
    generalize nCompact % 2 ^ 23 = w at hw
    by_cases hk : 8 * k ≤ 256
    · refine ⟨k, ?_, ?_⟩
      · have hU : U256 = 2 ^ (256 - 8 * k) * 2 ^ (8 * k) := by
          rw [← Nat.pow_add, U256]
          congr 1
          omega
        rw [hU, Nat.mul_mod_mul_right]
        exact Nat.dvd_mul_left _ _
      · refine lt_of_le_of_lt (Nat.mod_le _ _) ?_
        rw [Nat.pow_add]
        exact Nat.mul_lt_mul_of_pos_right hw (Nat.two_pow_pos _)
    · refine ⟨0, by simp, ?_⟩
      have hP : 2 ^ (8 * k) = 2 ^ (8 * k - 256) * U256 := by
        rw [U256, ← Nat.pow_add]
        congr 1
        omega
      rw [hP, ← Nat.mul_assoc, Nat.mul_mod_left]
      norm_num

/-- C16: for every compact value (in particular every one whose decoding is neither
negative nor overflowed), re-encoding the decoded magnitude yields a compact
value that decodes to exactly the same magnitude, neither negative nor
overflowed. -/
theorem SetCompact_GetCompact_SetCompact (nCompact : Nat) :
    (SetCompact (GetCompact (SetCompact nCompact).magnitude)).magnitude =
      (SetCompact nCompact).magnitude ∧
    (SetCompact (GetCompact (SetCompact nCompact).magnitude)).fNegative = false ∧
    (SetCompact (GetCompact (SetCompact nCompact).magnitude)).fOverflow = false := by
  obtain ⟨j, hd, hl⟩ := SetCompact_magnitude_aligned nCompact
  rw [SetCompact_GetCompact_aligned _ j (SetCompact_magnitude_lt nCompact) hd hl]
  exact ⟨rfl, rfl, rfl⟩

/-- C17: encoding is idempotent through decoding: for every 256-bit magnitude `m`,
`GetCompact (SetCompact (GetCompact m)).magnitude = GetCompact m`. -/
theorem GetCompact_idempotent (m : Nat) (hm : m < U256) :
    GetCompact (SetCompact (GetCompact m)).magnitude = GetCompact m := by
  by_cases h0 : m = 0
  · subst h0
    rw [GetCompact_zero]
    have : (SetCompact 0).magnitude = 0 := rfl
    rw [this, GetCompact_zero]
  · rw [SetCompact_GetCompact_trunc m hm h0]
    simp only
    by_cases h24 : bits m < 24
    · have hE : bits m / 8 - 2 = 0 := by omega
      simp [hE]
    · obtain ⟨hlt, hge, hle⟩ := bits_spec m hm
      have hge := hge h0
      have hmul : m / 2 ^ (8 * (bits m / 8 - 2)) * 2 ^ (8 * (bits m / 8 - 2)) ≤ m :=
        Nat.div_mul_le_self _ _
      have hlo : 2 ^ (bits m - 1) ≤
          m / 2 ^ (8 * (bits m / 8 - 2)) * 2 ^ (8 * (bits m / 8 - 2)) := by
        have hsplit : 2 ^ (bits m - 1) =
            2 ^ (bits m - 1 - 8 * (bits m / 8 - 2)) * 2 ^ (8 * (bits m / 8 - 2)) := by
          rw [← Nat.pow_add]
          congr 1
          omega
        rw [hsplit]
        apply Nat.mul_le_mul_right
        apply (Nat.le_div_iff_mul_le (Nat.two_pow_pos _)).mpr
        rw [← hsplit]
        exact hge
      have hv' : m / 2 ^ (8 * (bits m / 8 - 2)) * 2 ^ (8 * (bits m / 8 - 2)) < U256 :=
        lt_of_le_of_lt hmul hm
      have hb' : bits (m / 2 ^ (8 * (bits m / 8 - 2)) * 2 ^ (8 * (bits m / 8 - 2))) = bits m :=
        bits_unique _ _ hv' hlo (lt_of_le_of_lt hmul hlt) (by omega)
      have hne : m / 2 ^ (8 * (bits m / 8 - 2)) * 2 ^ (8 * (bits m / 8 - 2)) ≠ 0 := by
        have := Nat.two_pow_pos (bits m - 1)
        omega
      rw [GetCompact_closed _ hv' hne, GetCompact_closed m hm h0, hb']
      simp only [if_neg h24, Nat.mul_div_cancel _ (Nat.two_pow_pos _)]

/-- The magnitude `2^236 - 1` of the main-network ceiling: its encoding `0x1e0fffff`
is a fixed point. -/
theorem GetCompact_idempotent_witness :
    2 ^ 236 - 1 < U256 ∧ GetCompact (2 ^ 236 - 1) = 0x1e0fffff ∧
    GetCompact (SetCompact (GetCompact (2 ^ 236 - 1))).magnitude = GetCompact (2 ^ 236 - 1) :=
  ⟨by decide, by decide, GetCompact_idempotent (2 ^ 236 - 1) (by decide)⟩

/-! ## Termination of the minimum-difficulty walk -/

/-- When every header before the root satisfies the loop condition, the walk of lines
80-83 takes as many steps as there are ancestors and ends on the root. -/
theorem lastNonMinDifficulty_to_root (nInterval nProofOfWorkLimit : Nat) :
    ∀ b : CBlockIndex,
      (∀ i, i < numAncestors b → ∀ B : CBlockIndex, stepBack i (some b) = some B →
        B.nHeight % nInterval ≠ 0 ∧ B.nBits = nProofOfWorkLimit) →
      ∃ r : CBlockIndex, stepBack (numAncestors b) (some b) = some r ∧ r.pprev = none ∧
        lastNonMinDifficulty nInterval nProofOfWorkLimit b = r.nBits
  | .mk h t n none, _ => ⟨.mk h t n none, rfl, rfl, rfl⟩
  | .mk h t n (some p), hall => by
    have h0 := hall 0 (by simp [numAncestors]) (.mk h t n (some p)) rfl
    obtain ⟨r, hr, hp, hl⟩ := lastNonMinDifficulty_to_root nInterval nProofOfWorkLimit p
      (fun i hi B hB => hall (i + 1) (by simp only [numAncestors]; omega) B hB)
    refine ⟨r, hr, hp, ?_⟩
    simp only [CBlockIndex.nHeight, CBlockIndex.nBits] at h0
    simp only [lastNonMinDifficulty, if_pos h0]
    exact hl

/-- C21: in the minimum-difficulty branch (the sum of line 75 in the range of
`int64_t`) the backward walk ends after at most as
many steps as the parent has ancestors and `GetNextWorkRequired` returns the
`nBits` of the header it ends on; when every header from the parent back to
the child of the root has an off-boundary height and `nBits` equal to the
compact ceiling, the walk ends on the root, which has no parent, and the
root's `nBits` is returned. -/
theorem getNextWorkRequired_minDifficulty_terminates (s : StaticState) (st : ActualTimespans)
    (pindexLast : CBlockIndex) (pblock : CBlockHeader) (params : Params)
    (hne : (selectVersion st params (pindexLast.nHeight + 1)).nInterval ≠ 0)
    (hoff : ¬ (selectVersion st params (pindexLast.nHeight + 1)).nInterval ∣
      pindexLast.nHeight + 1)
    (hmin : params.fPowAllowMinDifficultyBlocks = true)
    (ht : pblock.GetBlockTime ≤ pindexLast.GetBlockTime + params.nPowTargetSpacing * 2)
    (hrange : -(2 ^ 63 : Int) ≤ params.nPowTargetSpacing * 2 ∧
      pindexLast.GetBlockTime + params.nPowTargetSpacing * 2 < 2 ^ 63) :
    (∃ (k : Nat) (H : CBlockIndex), k ≤ numAncestors pindexLast ∧
      stepBack k (some pindexLast) = some H ∧
      (GetNextWorkRequired s (some pindexLast) pblock params).1 = .ok H.nBits) ∧
    ((∀ i, i < numAncestors pindexLast → ∀ B : CBlockIndex,
        stepBack i (some pindexLast) = some B →
        ¬ (selectVersion st params (pindexLast.nHeight + 1)).nInterval ∣ B.nHeight ∧
          B.nBits = GetCompact params.powLimit) →
      ∃ r : CBlockIndex, stepBack (numAncestors pindexLast) (some pindexLast) = some r ∧
        r.pprev = none ∧
        (GetNextWorkRequired s (some pindexLast) pblock params).1 = .ok r.nBits) := by
  have hres := getNextWorkRequired_minDifficulty_branch s st pindexLast pblock params hne hoff
    hmin (by omega) hrange
  constructor
  · obtain ⟨k, H, hk, hs, hl, -, -⟩ :=
      lastNonMinDifficulty_walk (selectVersion st params (pindexLast.nHeight + 1)).nInterval
        (GetCompact params.powLimit) pindexLast
    exact ⟨k, H, hk, hs, by rw [hres, hl]⟩
  · intro hall
    obtain ⟨r, hr, hp, hl⟩ :=
      lastNonMinDifficulty_to_root (selectVersion st params (pindexLast.nHeight + 1)).nInterval
        (GetCompact params.powLimit) pindexLast
        (fun i hi B hB =>
          ⟨fun h0 => (hall i hi B hB).1 (Nat.dvd_of_mod_eq_zero h0), (hall i hi B hB).2⟩)
    exact ⟨r, hr, hp, by rw [hres, hl]⟩

/-- Two minimum-difficulty headers of heights 93 and 92 over a root of height 91: the
walk ends on the root and returns its target `0x1c0ffff0`. -/
theorem getNextWorkRequired_minDifficulty_terminates_witness :
    ({ sampleParams 75 300 with fPowAllowMinDifficultyBlocks := true } :
      Params).fPowAllowMinDifficultyBlocks = true ∧
    numAncestors (.mk 93 4720 0x1e0fffff (some (.mk 92 4680 0x1e0fffff
      (some (.mk 91 4640 0x1c0ffff0 none))))) = 2 ∧
    (GetNextWorkRequired StaticState.fresh
      (some (.mk 93 4720 0x1e0fffff (some (.mk 92 4680 0x1e0fffff
        (some (.mk 91 4640 0x1c0ffff0 none)))))) ⟨4760⟩
      { sampleParams 75 300 with fPowAllowMinDifficultyBlocks := true }).1 = .ok 0x1c0ffff0 ∧
    ∃ (k : Nat) (H : CBlockIndex),
      k ≤ numAncestors (.mk 93 4720 0x1e0fffff (some (.mk 92 4680 0x1e0fffff
        (some (.mk 91 4640 0x1c0ffff0 none))))) ∧
      stepBack k (some (.mk 93 4720 0x1e0fffff (some (.mk 92 4680 0x1e0fffff
        (some (.mk 91 4640 0x1c0ffff0 none)))))) = some H :=
  ⟨rfl, by decide, by decide, by
    obtain ⟨k, H, h1, h2, -⟩ := (getNextWorkRequired_minDifficulty_terminates StaticState.fresh
      (ActualTimespans.init { sampleParams 75 300 with fPowAllowMinDifficultyBlocks := true })
      (.mk 93 4720 0x1e0fffff (some (.mk 92 4680 0x1e0fffff
        (some (.mk 91 4640 0x1c0ffff0 none))))) ⟨4760⟩
      { sampleParams 75 300 with fPowAllowMinDifficultyBlocks := true }
      (by decide) (by decide) rfl (by decide) (by decide)).1
    exact ⟨k, H, h1, h2⟩⟩

/-! ## The timespan that scales the target -/

/-- A 32-bit value survives the round trip through `int`. -/
theorem toU32_toInt32 (u : Nat) (h : u < U32) : toU32 (toInt32 u) = u := by
  unfold toU32 toInt32
  simp only [U32] at h ⊢
  split_ifs <;> omega

/-- A wrapped product divided by 100 is a 32-bit value. -/
theorem mulU32_div_lt (a b : Nat) : mulU32 a b / 100 < U32 := by
  have h : mulU32 a b < U32 := Nat.mod_lt _ (by simp [U32])
  exact lt_of_le_of_lt (Nat.div_le_self _ _) h

/-- The minimum bound selected from the initialisers of a record is the selected
averaging target timespan times `100 - nMaxAdjustUp` over 100, in 32-bit
unsigned arithmetic; the maximum bound likewise with `100 + nMaxAdjustDown`. -/
theorem selectVersion_init_bounds (st : ActualTimespans) (params : Params) (n : Nat) :
    (selectVersion (ActualTimespans.init params) params n).nMinActualTimespan =
      mulU32 (selectVersion st params n).nAveragingTargetTimespan
        (subU32 100 (selectedMaxAdjustUp params n)) / 100 ∧
    (selectVersion (ActualTimespans.init params) params n).nMaxActualTimespan =
      mulU32 (selectVersion st params n).nAveragingTargetTimespan
        (addU32 100 (selectedMaxAdjustDown params n)) / 100 := by
  unfold selectVersion selectedMaxAdjustUp selectedMaxAdjustDown epochIndex
  split_ifs <;>
    simp only [versionFields, ActualTimespans.init] <;>
    exact ⟨toU32_toInt32 _ (mulU32_div_lt _ _), toU32_toInt32 _ (mulU32_div_lt _ _)⟩

/-- The form of `CalculateNextWorkRequired` with retargeting enabled: the old target
is scaled by the minimum bound in force, whatever the two timestamps. -/
theorem calculateNextWorkRequired_eq (s : StaticState) (pindexLast : CBlockIndex)
    (nFirstBlockTime : Int) (params : Params) (hnr : params.fPowNoRetargeting = false) :
    (CalculateNextWorkRequired s pindexLast nFirstBlockTime params).1 =
      match retarget (SetCompact pindexLast.nBits).magnitude
        ((selectVersion (s.calculateNextWorkRequired.getD (ActualTimespans.init params)) params
          (pindexLast.nHeight + 1)).nMinActualTimespan : Int)
        (selectVersion (s.calculateNextWorkRequired.getD (ActualTimespans.init params)) params
          (pindexLast.nHeight + 1)).nAveragingTargetTimespan with
      | none => .error .divisionByZero
      | some bnNew => .ok (GetCompact (if bnNew > params.powLimit then params.powLimit else bnNew)) := by
  simp only [CalculateNextWorkRequired, hnr, limitAdjustmentStep_eq]
  simp only [Bool.false_eq_true, if_false]
  split <;> rename_i h <;> simp [h]

/-- The retarget arithmetic written out in 256-bit arithmetic. -/
theorem retarget_mod (m ts T : Nat) (hts : ts < U32) (hT : T ≠ 0) :
    retarget m (ts : Int) T =
      some (if bits m > 235 then m / 2 * ts % U256 / T * 2 % U256 else m * ts % U256 / T) := by
  unfold retarget divBig shiftLeft1 shiftRight1 mulWord
  rw [toU32_natCast ts hts]
  by_cases hsh : bits m > 235 <;> simp [hsh, hT]

/-- C22 (the code at a failing input): on the main-network shape of epoch 1 with
`nMaxAdjustUp = 75` and `nMaxAdjustDown = 300` the bounds are 900 and 14400
seconds; 90 headers 60 s apart give a raw timespan of 5340 s, above the
minimum and below the maximum, so that the value to scale by is the raw
timespan itself; yet the limit step returns 900 and the result is
`0x1c03fffc`, a quarter of the old target, where scaling by the raw timespan
gives `0x1c17bba4`. -/
theorem calculateNextWorkRequired_above_min_failing :
    (sampleParams 75 300).fPowNoRetargeting = false ∧
    (selectVersion (ActualTimespans.init (sampleParams 75 300)) (sampleParams 75 300)
      ((uniformChain 0x1c0ffff0 1000 60 89).nHeight + 1)).nMinActualTimespan = 900 ∧
    (selectVersion (ActualTimespans.init (sampleParams 75 300)) (sampleParams 75 300)
      ((uniformChain 0x1c0ffff0 1000 60 89).nHeight + 1)).nMaxActualTimespan = 14400 ∧
    (selectVersion (ActualTimespans.init (sampleParams 75 300)) (sampleParams 75 300)
      ((uniformChain 0x1c0ffff0 1000 60 89).nHeight + 1)).nAveragingTargetTimespan = 3600 ∧
    (uniformChain 0x1c0ffff0 1000 60 89).GetBlockTime - 1000 = 5340 ∧
    limitAdjustmentStep ((uniformChain 0x1c0ffff0 1000 60 89).GetBlockTime - 1000) 900 = 900 ∧
    limitAdjustmentStep ((uniformChain 0x1c0ffff0 1000 60 89).GetBlockTime - 1000) 900 ≠
      (uniformChain 0x1c0ffff0 1000 60 89).GetBlockTime - 1000 ∧
    (CalculateNextWorkRequired StaticState.fresh (uniformChain 0x1c0ffff0 1000 60 89) 1000
      (sampleParams 75 300)).1 = .ok 0x1c03fffc ∧
    retarget (SetCompact 0x1c0ffff0).magnitude 5340 3600 =
      some ((SetCompact 0x1c0ffff0).magnitude * 5340 / 3600) ∧
    GetCompact (min (sampleParams 75 300).powLimit
      ((SetCompact 0x1c0ffff0).magnitude * 5340 / 3600)) = 0x1c17bba4 := by
  refine ⟨rfl, by decide, by decide, by decide, by decide, by decide, by decide, by decide,
    by decide, by decide⟩

/-! ## The static bounds across calls -/

/-- The result of `CalculateNextWorkRequired` reads the height and the `nBits` of the
parent, never its timestamp, its parent link or the first-block time. -/
theorem calculateNextWorkRequired_timestamps (s : StaticState) (pindexLast : CBlockIndex)
    (nFirstBlockTime : Int) (params : Params) (nTime' : Nat) (pprev' : Option CBlockIndex)
    (nFirstBlockTime' : Int) :
    (CalculateNextWorkRequired s (.mk pindexLast.nHeight nTime' pindexLast.nBits pprev')
        nFirstBlockTime' params).1 =
      (CalculateNextWorkRequired s pindexLast nFirstBlockTime params).1 := by
  rcases Bool.eq_false_or_eq_true params.fPowNoRetargeting with hnr | hnr
  · simp [CalculateNextWorkRequired, hnr, CBlockIndex.nBits]
  · rw [calculateNextWorkRequired_eq s _ _ _ hnr, calculateNextWorkRequired_eq s _ _ _ hnr]
    rfl

/-- The result of `CalculateNextWorkRequired` reads no `nMaxAdjustDown` field. -/
theorem calculateNextWorkRequired_adjustDown (s : StaticState) (pindexLast : CBlockIndex)
    (nFirstBlockTime : Int) (params : Params) (d1 d2 d3 : Nat) :
    (CalculateNextWorkRequired s pindexLast nFirstBlockTime
        { params with
          nMaxAdjustDown_Version1 := d1
          nMaxAdjustDown_Version2 := d2
          nMaxAdjustDown_Version3 := d3 }).1 =
      (CalculateNextWorkRequired s pindexLast nFirstBlockTime params).1 := by
  obtain ⟨g, c⟩ := s
  rcases Bool.eq_false_or_eq_true params.fPowNoRetargeting with hnr | hnr
  · simp [CalculateNextWorkRequired, hnr]
  · have e1 := calculateNextWorkRequired_eq ⟨g, c⟩ pindexLast nFirstBlockTime
      { params with
        nMaxAdjustDown_Version1 := d1
        nMaxAdjustDown_Version2 := d2
        nMaxAdjustDown_Version3 := d3 } hnr
    have e2 := calculateNextWorkRequired_eq ⟨g, c⟩ pindexLast nFirstBlockTime params hnr
    rw [e1, e2]
    cases c <;>
      simp only [Option.getD, selectVersion, epochIndex, ActualTimespans.init] <;>
      split_ifs <;> simp only [versionFields]

/-- C24 (as stated, refuted): on the test-network record (retargeting enabled,
averaging target timespans zero) the call returns no target at all, the
division failing; and under the ceiling `2^255 - 1` with `nMaxAdjustUp = 0`
the parent target `0x207fffff` gives `0x1f2467ac`, where the product of half
its magnitude by the minimum timespan 3600, divided by 3600 and doubled,
encodes as `0x207fffff`. -/
theorem calculateNextWorkRequired_closed_form_refuted :
    testNetParams.fPowNoRetargeting = false ∧
    (CalculateNextWorkRequired StaticState.fresh (uniformChain 0x1c0ffff0 1000 40 89) 1000
      testNetParams).1 = .error .divisionByZero ∧
    ({ sampleParams 0 300 with powLimit := 2 ^ 255 - 1 } : Params).fPowNoRetargeting = false ∧
    bits (SetCompact 0x207fffff).magnitude > 235 ∧
    (selectVersion (ActualTimespans.init { sampleParams 0 300 with powLimit := 2 ^ 255 - 1 })
      { sampleParams 0 300 with powLimit := 2 ^ 255 - 1 } 90).nMinActualTimespan = 3600 ∧
    (CalculateNextWorkRequired StaticState.fresh (uniformChain 0x207fffff 1000 40 89) 1000
      { sampleParams 0 300 with powLimit := 2 ^ 255 - 1 }).1 = .ok 0x1f2467ac ∧
    GetCompact (min (2 ^ 255 - 1) ((SetCompact 0x207fffff).magnitude / 2 * 3600 / 3600 * 2)) =
      0x207fffff := by
  refine ⟨rfl, by decide, rfl, by decide, by decide, by decide, by decide⟩

/-- C24 (amended): with retargeting enabled, a non-zero selected averaging target
timespan `T` and static bounds that are those of the record, the result of
`CalculateNextWorkRequired` is the encoding of `min(powLimit, S)`, where `S`
is the decoded parent target `m` (halved first and doubled afterwards when it
has more than 235 bits) multiplied by the selected minimum actual timespan
`ts = T * (100 - nMaxAdjustUp) / 100` and divided by `T`, the product and the
doubling being taken modulo `2^256`; the result is the same for every
first-block time and parent timestamp and for every value of the
`nMaxAdjustDown` fields. -/
theorem calculateNextWorkRequired_closed_form (s : StaticState) (st : ActualTimespans)
    (pindexLast : CBlockIndex) (nFirstBlockTime : Int) (params : Params) (m ts T : Nat)
    (hm : m = (SetCompact pindexLast.nBits).magnitude)
    (hT : T = (selectVersion st params (pindexLast.nHeight + 1)).nAveragingTargetTimespan)
    (hts : ts = mulU32 T (subU32 100 (selectedMaxAdjustUp params (pindexLast.nHeight + 1))) / 100)
    (hnr : params.fPowNoRetargeting = false) (hs : s.boundsOf params) (hT0 : T ≠ 0) :
    (CalculateNextWorkRequired s pindexLast nFirstBlockTime params).1 =
      .ok (GetCompact
        (if (if bits m > 235 then m / 2 * ts % U256 / T * 2 % U256 else m * ts % U256 / T) >
            params.powLimit
          then params.powLimit
          else (if bits m > 235 then m / 2 * ts % U256 / T * 2 % U256
            else m * ts % U256 / T))) ∧
    (∀ (nTime' : Nat) (pprev' : Option CBlockIndex) (nFirstBlockTime' : Int),
      (CalculateNextWorkRequired s (.mk pindexLast.nHeight nTime' pindexLast.nBits pprev')
        nFirstBlockTime' params).1 =
        (CalculateNextWorkRequired s pindexLast nFirstBlockTime params).1) ∧
    (∀ d1 d2 d3 : Nat,
      (CalculateNextWorkRequired s pindexLast nFirstBlockTime
        { params with
          nMaxAdjustDown_Version1 := d1
          nMaxAdjustDown_Version2 := d2
          nMaxAdjustDown_Version3 := d3 }).1 =
        (CalculateNextWorkRequired s pindexLast nFirstBlockTime params).1) := by
  refine ⟨?_, calculateNextWorkRequired_timestamps s pindexLast nFirstBlockTime params,
    calculateNextWorkRequired_adjustDown s pindexLast nFirstBlockTime params⟩
  have hb := (selectVersion_init_bounds st params (pindexLast.nHeight + 1)).1
  have hts32 : ts < U32 := hts ▸ mulU32_div_lt _ _
  rw [calculateNextWorkRequired_eq s _ _ _ hnr, hs, hb,
    selectVersion_nAveragingTargetTimespan (ActualTimespans.init params) st, ← hT, ← hts, ← hm,
    retarget_mod m ts T hts32 hT0]

/-- The main-network shape of epoch 1: `T = 3600`, `ts = 900`. -/
theorem calculateNextWorkRequired_closed_form_witness :
    (sampleParams 75 300).fPowNoRetargeting = false ∧
    StaticState.fresh.boundsOf (sampleParams 75 300) ∧
    (CalculateNextWorkRequired StaticState.fresh (uniformChain 0x1c0ffff0 1000 40 89) 1000
      (sampleParams 75 300)).1 =
      .ok (GetCompact
        (if (if bits (SetCompact 0x1c0ffff0).magnitude > 235
              then (SetCompact 0x1c0ffff0).magnitude / 2 * 900 % U256 / 3600 * 2 % U256
              else (SetCompact 0x1c0ffff0).magnitude * 900 % U256 / 3600) >
            (sampleParams 75 300).powLimit
          then (sampleParams 75 300).powLimit
          else (if bits (SetCompact 0x1c0ffff0).magnitude > 235
              then (SetCompact 0x1c0ffff0).magnitude / 2 * 900 % U256 / 3600 * 2 % U256
              else (SetCompact 0x1c0ffff0).magnitude * 900 % U256 / 3600))) :=
  ⟨rfl, rfl,
    (calculateNextWorkRequired_closed_form StaticState.fresh
      (ActualTimespans.init (sampleParams 75 300)) (uniformChain 0x1c0ffff0 1000 40 89) 1000
      (sampleParams 75 300) (SetCompact 0x1c0ffff0).magnitude 900 3600 (by decide) (by decide)
      (by decide) rfl rfl (by decide)).1⟩

/-! ## A retarget never makes the target easier; an interval of one block -/

/-- For a magnitude of at most 236 bits and a timespan of at most `2^20` the retarget
arithmetic is the exact integer computation. -/
theorem retarget_exact_le (m ts T : Nat) (hm : m < U256) (hb : bits m ≤ 236)
    (hts : ts ≤ 2 ^ 20) (hT : T ≠ 0) :
    retarget m (ts : Int) T =
      some (if bits m > 235 then m / 2 * ts / T * 2 else m * ts / T) := by
  have hts32 : ts < U32 := lt_of_le_of_lt hts (by simp [U32])
  have hm236 := lt_of_bits_le m 236 hm hb
  have key : ∀ g : Nat, g < 2 ^ 235 → g * ts < 2 ^ 255 := by
    intro g hg
    calc g * ts ≤ g * 2 ^ 20 := Nat.mul_le_mul_left _ hts
      _ < 2 ^ 235 * 2 ^ 20 := Nat.mul_lt_mul_of_pos_right hg (by norm_num)
      _ = 2 ^ 255 := by norm_num
  rw [retarget_mod m ts T hts32 hT]
  by_cases hsh : bits m > 235
  · have hp := key (m / 2) (by omega)
    have hd : m / 2 * ts / T ≤ m / 2 * ts := Nat.div_le_self _ _
    have hp256 : m / 2 * ts < U256 := lt_trans hp (by simp [U256])
    have hd256 : m / 2 * ts / T * 2 < U256 := by
      simp only [U256]
      omega
    simp only [if_pos hsh, Nat.mod_eq_of_lt hp256, Nat.mod_eq_of_lt hd256]
  · have hp := key m (lt_of_bits_le m 235 hm (by omega))
    have hp256 : m * ts < U256 := lt_trans hp (by simp [U256])
    simp only [if_neg hsh, Nat.mod_eq_of_lt hp256]

/-- With `nMaxAdjustUp ≤ 100` the minimum bound of the initialisers does not exceed
the timespan. -/
theorem minActualTimespan_le (T up : Nat) (hup : up ≤ 100) :
    mulU32 T (subU32 100 up) / 100 ≤ T := by
  have hsub : subU32 100 up = 100 - up := by
    unfold subU32
    simp only [U32]
    omega
  have hle : T * (100 - up) ≤ T * 100 := Nat.mul_le_mul_left _ (by omega)
  have hmod : mulU32 T (100 - up) ≤ T * (100 - up) := Nat.mod_le _ _
  rw [hsub]
  exact Nat.div_le_of_le_mul (by omega)

/-- C25 (as stated, refuted): after a call with the record with `nMaxAdjustUp = 0`
and timespan 3600, a call with a record with `nMaxAdjustUp = 75` and
averaging target timespan 900 (a parent target of 221 bits, retargeting
enabled) scales by the stale minimum 3600 over 900 and returns `0x1c3fffc0`,
four times the magnitude of the parent's `0x1c0ffff0`; in a fresh process the
same call returns `0x1c03fffc`. -/
theorem calculateNextWorkRequired_easier_after_other_record :
    bits (SetCompact 0x1c0ffff0).magnitude ≤ 236 ∧
    ({ sampleParams 75 300 with nAveragingTargetTimespan_Version1 := 900 } :
      Params).fPowNoRetargeting = false ∧
    selectedMaxAdjustUp { sampleParams 75 300 with nAveragingTargetTimespan_Version1 := 900 }
      90 ≤ 100 ∧
    (selectVersion (ActualTimespans.init (sampleParams 0 300))
      { sampleParams 75 300 with nAveragingTargetTimespan_Version1 := 900 }
      90).nAveragingTargetTimespan = 900 ∧
    (CalculateNextWorkRequired
      (CalculateNextWorkRequired StaticState.fresh (uniformChain 0x1c0ffff0 1000 40 89) 1000
        (sampleParams 0 300)).2
      (uniformChain 0x1c0ffff0 1000 40 89) 1000
      { sampleParams 75 300 with nAveragingTargetTimespan_Version1 := 900 }).1 =
        .ok 0x1c3fffc0 ∧
    (SetCompact 0x1c0ffff0).magnitude < (SetCompact 0x1c3fffc0).magnitude ∧
    (CalculateNextWorkRequired StaticState.fresh (uniformChain 0x1c0ffff0 1000 40 89) 1000
      { sampleParams 75 300 with nAveragingTargetTimespan_Version1 := 900 }).1 =
        .ok 0x1c03fffc := by
  refine ⟨by decide, rfl, by decide, by decide, by decide, by decide, by decide⟩

/-- C25 (amended): in a process whose static bounds are those of the record, for every
parent whose decoded target has at most 236 bits and every record with
retargeting enabled, selected `nMaxAdjustUp ≤ 100` and selected averaging
target timespan in `[1, 2^20]`, `CalculateNextWorkRequired` returns a target
whose magnitude is at most the decoded magnitude of the parent's `nBits`, for
every pair of timestamps. -/
theorem calculateNextWorkRequired_never_easier (s : StaticState) (st : ActualTimespans)
    (pindexLast : CBlockIndex) (nFirstBlockTime : Int) (params : Params)
    (hs : s.boundsOf params) (hnr : params.fPowNoRetargeting = false)
    (hbits : bits (SetCompact pindexLast.nBits).magnitude ≤ 236)
    (hup : selectedMaxAdjustUp params (pindexLast.nHeight + 1) ≤ 100)
    (hT1 : 1 ≤ (selectVersion st params (pindexLast.nHeight + 1)).nAveragingTargetTimespan)
    (hT2 : (selectVersion st params (pindexLast.nHeight + 1)).nAveragingTargetTimespan ≤
      2 ^ 20) :
    ∃ nBits, (CalculateNextWorkRequired s pindexLast nFirstBlockTime params).1 = .ok nBits ∧
      (SetCompact nBits).magnitude ≤ (SetCompact pindexLast.nBits).magnitude := by
  have hb := (selectVersion_init_bounds st params (pindexLast.nHeight + 1)).1
  have hm := SetCompact_magnitude_lt pindexLast.nBits
  rw [calculateNextWorkRequired_eq s _ _ _ hnr, hs, hb,
    selectVersion_nAveragingTargetTimespan (ActualTimespans.init params) st]
  generalize (selectVersion st params (pindexLast.nHeight + 1)).nAveragingTargetTimespan = T
    at hT1 hT2 ⊢
  have hle := minActualTimespan_le T _ hup
  generalize mulU32 T (subU32 100 (selectedMaxAdjustUp params (pindexLast.nHeight + 1))) / 100
    = ts at hle ⊢
  generalize (SetCompact pindexLast.nBits).magnitude = m at hbits hm ⊢
  rw [retarget_exact_le m ts T hm hbits (le_trans hle hT2) (by omega)]
  have hS : (if bits m > 235 then m / 2 * ts / T * 2 else m * ts / T) ≤ m := by
    split_ifs
    · have h1 : m / 2 * ts / T ≤ m / 2 :=
        Nat.div_le_of_le_mul (by rw [Nat.mul_comm T]; exact Nat.mul_le_mul_left _ hle)
      omega
    · exact Nat.div_le_of_le_mul (by rw [Nat.mul_comm T]; exact Nat.mul_le_mul_left _ hle)
  generalize (if bits m > 235 then m / 2 * ts / T * 2 else m * ts / T) = S at hS ⊢
  refine ⟨_, rfl, ?_⟩
  have hc : (if S > params.powLimit then params.powLimit else S) ≤ S := by
    split_ifs <;> omega
  exact le_trans (SetCompact_GetCompact_le _ (lt_of_le_of_lt (le_trans hc hS) hm)).1
    (le_trans hc hS)

/-- The main-network shape of epoch 1 with the parent target `0x1c0ffff0`: the
recalculated `0x1c03fffc` is not above it. -/
theorem calculateNextWorkRequired_never_easier_witness :
    StaticState.fresh.boundsOf (sampleParams 75 300) ∧
    bits (SetCompact (uniformChain 0x1c0ffff0 1000 40 89).nBits).magnitude ≤ 236 ∧
    (CalculateNextWorkRequired StaticState.fresh (uniformChain 0x1c0ffff0 1000 40 89) 1000
      (sampleParams 75 300)).1 = .ok 0x1c03fffc ∧
    ∃ nBits, (CalculateNextWorkRequired StaticState.fresh (uniformChain 0x1c0ffff0 1000 40 89)
        1000 (sampleParams 75 300)).1 = .ok nBits ∧
      (SetCompact nBits).magnitude ≤
        (SetCompact (uniformChain 0x1c0ffff0 1000 40 89).nBits).magnitude :=
  ⟨rfl, by decide, by decide,
    calculateNextWorkRequired_never_easier StaticState.fresh
      (ActualTimespans.init (sampleParams 75 300)) (uniformChain 0x1c0ffff0 1000 40 89) 1000
      (sampleParams 75 300) rfl rfl (by decide) (by decide) (by decide) (by decide)⟩

/-- C26: when the selected retarget interval is 1, `GetNextWorkRequired` for a
non-root parent takes the recalculation path: its result is the assertion
failure of the walk or the result of `CalculateNextWorkRequired` on the
window's first timestamp, and the call returns the same whatever the
candidate header and the `fPowAllowMinDifficultyBlocks` flag. -/
theorem getNextWorkRequired_interval_one (s : StaticState) (st : ActualTimespans)
    (pindexLast : CBlockIndex) (pblock : CBlockHeader) (params : Params)
    (h1 : (selectVersion st params (pindexLast.nHeight + 1)).nInterval = 1) :
    (GetNextWorkRequired s (some pindexLast) pblock params).1 =
      (match stepBack
        (if pindexLast.nHeight + 1 ≠
            (selectVersion st params (pindexLast.nHeight + 1)).nAveragingInterval
          then toInt32 (selectVersion st params (pindexLast.nHeight + 1)).nAveragingInterval
          else toInt32
            (subU32 (selectVersion st params (pindexLast.nHeight + 1)).nAveragingInterval 1)).toNat
        (some pindexLast) with
      | none => .error .assertion
      | some pindexFirst =>
        (CalculateNextWorkRequired s pindexLast pindexFirst.GetBlockTime params).1) ∧
    ∀ (pblock' : CBlockHeader) (fMinDifficulty : Bool),
      (GetNextWorkRequired s (some pindexLast) pblock'
        { params with fPowAllowMinDifficultyBlocks := fMinDifficulty }).1 =
        (GetNextWorkRequired s (some pindexLast) pblock params).1 := by
  have hon : (selectVersion st params (pindexLast.nHeight + 1)).nInterval ∣
      pindexLast.nHeight + 1 := by
    rw [h1]
    exact Nat.one_dvd _
  refine ⟨getNextWorkRequired_on_boundary s st pindexLast pblock params hon, ?_⟩
  intro pblock' f
  have hon' : (selectVersion st { params with fPowAllowMinDifficultyBlocks := f }
      (pindexLast.nHeight + 1)).nInterval ∣ pindexLast.nHeight + 1 := hon
  rw [getNextWorkRequired_on_boundary s st pindexLast pblock params hon,
    getNextWorkRequired_on_boundary s st pindexLast pblock'
      { params with fPowAllowMinDifficultyBlocks := f } hon']
  rfl

/-- Height 426006 of the main-network shape, in version 3 (interval 1, window 6): the
target is recalculated from the header six links back, with the flag off or
on. -/
theorem getNextWorkRequired_interval_one_witness :
    (selectVersion (ActualTimespans.init (sampleParams 75 300)) (sampleParams 75 300)
      (426005 + 1)).nInterval = 1 ∧
    (GetNextWorkRequired StaticState.fresh
      (some (.mk 426005 5240 0x1c0ffff0 (some (.mk 426004 5200 0x1c0ffff0
        (some (.mk 426003 5160 0x1c0ffff0 (some (.mk 426002 5120 0x1c0ffff0
          (some (.mk 426001 5080 0x1c0ffff0 (some (.mk 426000 5040 0x1c0ffff0
            (some (.mk 425999 5000 0x1c0ffff0 none))))))))))))))
      ⟨5280⟩ (sampleParams 75 300)).1 = .ok 0x1c03fffc ∧
    (GetNextWorkRequired StaticState.fresh
      (some (.mk 426005 5240 0x1c0ffff0 (some (.mk 426004 5200 0x1c0ffff0
        (some (.mk 426003 5160 0x1c0ffff0 (some (.mk 426002 5120 0x1c0ffff0
          (some (.mk 426001 5080 0x1c0ffff0 (some (.mk 426000 5040 0x1c0ffff0
            (some (.mk 425999 5000 0x1c0ffff0 none))))))))))))))
      ⟨9999⟩ { sampleParams 75 300 with fPowAllowMinDifficultyBlocks := true }).1 =
    (GetNextWorkRequired StaticState.fresh
      (some (.mk 426005 5240 0x1c0ffff0 (some (.mk 426004 5200 0x1c0ffff0
        (some (.mk 426003 5160 0x1c0ffff0 (some (.mk 426002 5120 0x1c0ffff0
          (some (.mk 426001 5080 0x1c0ffff0 (some (.mk 426000 5040 0x1c0ffff0
            (some (.mk 425999 5000 0x1c0ffff0 none))))))))))))))
      ⟨5280⟩ (sampleParams 75 300)).1 :=
  ⟨by decide, by decide,
    (getNextWorkRequired_interval_one StaticState.fresh
      (ActualTimespans.init (sampleParams 75 300))
      (.mk 426005 5240 0x1c0ffff0 (some (.mk 426004 5200 0x1c0ffff0
        (some (.mk 426003 5160 0x1c0ffff0 (some (.mk 426002 5120 0x1c0ffff0
          (some (.mk 426001 5080 0x1c0ffff0 (some (.mk 426000 5040 0x1c0ffff0
            (some (.mk 425999 5000 0x1c0ffff0 none)))))))))))))
      ⟨5280⟩ (sampleParams 75 300) (by decide)).2 ⟨9999⟩ true⟩

end Florincoin
